import Mathlib

/-!
# Taisei logging engine (`src/log.c`) and object pool (`src/objectpool.c`): a shallow embedding

The global `logging` object of `log.c` becomes the record `Logging`; the effects
the engine has on the outside (writes, flushes and closes of output handles, the
message box, `abort`) are collected, in the order in which they happen, in the
`trace` of a `World`.

Conventions of the embedding:

* a C string is the list of its characters in front of the terminating NUL;
* an `SDL_RWops *` is a handle number, `NULL` is `none`;
* level masks are natural numbers, the bitwise operators of C are `&&&`, `|||`
  and `bit_not32`;
* a formatter callback (`FormatterObj.format`) is the function it computes: from
  the staging buffer and the record to the new buffer and the returned count;
* the two mutexes and the condition variable are not modelled; the worker thread
  is modelled by the iterations of its loop (`log_queue_thread_iter`), and
  joining it (`SDL_WaitThread`) by running its loop to the end
  (`log_queue_thread_wake`);
* the assertion of `log_internal` on the format string is the caller contract of
  the API; the embedding receives the message already rendered from the format
  string and its arguments.
-/

namespace Taisei

/-! ## Level masks -/

/-- A C string: its characters in front of the terminating NUL. -/
abbrev CString := List Char

/-- The type `LogLevel` of the API, a set of bits held in an `unsigned int`. -/
abbrev LogLevel := Nat

/-- Modelled from the spec: the header `log.h` is not among the sources. The five
severities are the bits 0 to 4 in increasing severity, which is also what
`chr2lvl` (`1 << i`) and `INDEX_MAP` rely on. -/
def _LOG_DEBUG_ID : Nat := 0

/-- Modelled from the spec: index of the Info severity (`log.h`). -/
def _LOG_INFO_ID : Nat := 1

/-- Modelled from the spec: index of the Warning severity (`log.h`). -/
def _LOG_WARN_ID : Nat := 2

/-- Modelled from the spec: index of the Error severity (`log.h`). -/
def _LOG_ERROR_ID : Nat := 3

/-- Modelled from the spec: index of the Fatal severity (`log.h`). -/
def _LOG_FATAL_ID : Nat := 4

/-- Modelled from the spec: index of the sixth bit, the no-abort modifier
(`log.h`). -/
def _LOG_NOABORT_ID : Nat := 5

/-- Modelled from the spec: the empty mask. -/
def LOG_NONE : LogLevel := 0

/-- Modelled from the spec: the Debug bit. -/
def LOG_DEBUG : LogLevel := 1 <<< _LOG_DEBUG_ID

/-- Modelled from the spec: the Info bit. -/
def LOG_INFO : LogLevel := 1 <<< _LOG_INFO_ID

/-- Modelled from the spec: the Warning bit. -/
def LOG_WARN : LogLevel := 1 <<< _LOG_WARN_ID

/-- Modelled from the spec: the Error bit. -/
def LOG_ERROR : LogLevel := 1 <<< _LOG_ERROR_ID

/-- Modelled from the spec: the Fatal bit. -/
def LOG_FATAL : LogLevel := 1 <<< _LOG_FATAL_ID

/-- Modelled from the spec: the no-abort modifier bit. -/
def LOG_NOABORT_BIT : LogLevel := 1 <<< _LOG_NOABORT_ID

/-- Modelled from the spec: all five severities. -/
def LOG_ALL : LogLevel := LOG_DEBUG ||| LOG_INFO ||| LOG_WARN ||| LOG_ERROR ||| LOG_FATAL

/-- The operator `~` of C on a 32-bit unsigned value. -/
def bit_not32 (x : Nat) : Nat := 2 ^ 32 - 1 - x % 2 ^ 32

/-! ## Data model -/

/-- The record handed to formatters (`LogEntry` of `log.h`). -/
structure LogEntry where
  message : CString
  file : CString
  func : CString
  time : Nat
  line : Nat
  level : LogLevel
  deriving DecidableEq

/-- A formatter instance: `format` renders a record into the staging buffer and
returns the number of bytes; `free` tells whether a cleanup routine is set. -/
structure FormatterObj where
  format : CString → LogEntry → CString × Nat
  free : Bool

/-- A registered sink (`struct Logger`). -/
structure Logger where
  formatter : FormatterObj
  out : Nat
  levels : LogLevel

/-- An entry of the queue; it owns a copy of the message, which `e.message`
points to. -/
structure QueuedLogEntry where
  e : LogEntry
  deriving DecidableEq

/-- The two staging buffers of the engine. -/
structure Buffers where
  pre_format : CString
  format : CString

/-- The member `queue` of the global state. -/
structure LogQueue where
  thread : Bool
  mutex : Bool
  cond : Bool
  queue : List QueuedLogEntry
  shutdown : Nat

/-- The global object `logging`. -/
structure Logging where
  outputs : List Logger
  num_outputs : Nat
  mutex : Bool
  enabled_log_levels : LogLevel
  buffers : Buffers
  queue : LogQueue
  initialized : Bool
  err_appendix : Option CString

/-- What the engine does to the outside world. -/
inductive Event where
  | rw_write (out : Nat) (bytes : CString)
  | rw_sync (out : Nat)
  | rw_close (out : Nat)
  | formatter_free (out : Nat)
  | msgbox (text : CString)
  | abort
  deriving DecidableEq

/-- The global state together with the effects so far, oldest first. -/
structure World where
  logging : Logging
  trace : List Event

/-- Build and environment settings read by the engine. -/
structure Env where
  LOG_FATAL_MSGBOX : Bool
  TAISEI_LOG_ASYNC_FAST_SHUTDOWN : Bool
  debug_info : CString

/-- How a call of the logging API ends. -/
inductive Outcome where
  | returned (w : World)
  | aborted (w : World)

/-- The state after `memset(&logging, 0, sizeof(logging))`. -/
def logging_zero : Logging :=
  { outputs := [], num_outputs := 0, mutex := false, enabled_log_levels := 0,
    buffers := { pre_format := [], format := [] },
    queue := { thread := false, mutex := false, cond := false, queue := [], shutdown := 0 },
    initialized := false, err_appendix := none }

/-! ## State updates -/

/-- The world with another content of the staging buffer `format`. -/
def World.with_format (w : World) (f : CString) : World :=
  { w with logging := { w.logging with buffers := { w.logging.buffers with format := f } } }

/-- The world with another content of the queue. -/
def World.with_queue (w : World) (q : List QueuedLogEntry) : World :=
  { w with logging := { w.logging with queue := { w.logging.queue with queue := q } } }

/-- The world with another value of the shutdown flag of the queue. -/
def World.with_shutdown (w : World) (flag : Nat) : World :=
  { w with logging := { w.logging with queue := { w.logging.queue with shutdown := flag } } }

/-- The world after the worker has been joined and the mutex and the condition
variable of the queue destroyed: the three handles are null. -/
def World.queue_released (w : World) : World :=
  { w with logging := { w.logging with
      queue := { w.logging.queue with thread := false, mutex := false, cond := false } } }

/-- The world with another content of the staging buffer `pre_format`. -/
def World.with_pre_format (w : World) (m : CString) : World :=
  { w with logging := { w.logging with buffers := { w.logging.buffers with pre_format := m } } }

/-- The world with more effects at the end of its trace. -/
def World.emit (w : World) (evs : List Event) : World :=
  { w with trace := w.trace ++ evs }

/-! ## Dispatch -/

/-- The body of the loop of `log_dispatch` for one sink. -/
def log_dispatch_one (entry : LogEntry) (l : Logger) (w : World) : World :=
  if l.levels &&& entry.level ≠ 0 then
    let r := l.formatter.format [] entry
    (w.with_format r.1).emit [Event.rw_write l.out (r.1.take r.2)]
  else w

/-- The loop of `log_dispatch` over the sinks that remain. -/
def log_dispatch_loop (entry : LogEntry) : List Logger → World → World
  | [], w => w
  | l :: ls, w => log_dispatch_loop entry ls (log_dispatch_one entry l w)

/-- The function `log_dispatch`. -/
def log_dispatch (entry : LogEntry) (w : World) : World :=
  log_dispatch_loop entry w.logging.outputs w

/-- Modelled from the spec: `alist_append` of `list.h` adds at the tail of the
queue. -/
def alist_append (q : List QueuedLogEntry) (qle : QueuedLogEntry) : List QueuedLogEntry :=
  q ++ [qle]

/-- Modelled from the spec: `alist_pop` of `list.h` removes the head of the
queue, the oldest entry of the FIFO. -/
def alist_pop (q : List QueuedLogEntry) : Option QueuedLogEntry × List QueuedLogEntry :=
  match q with
  | [] => (none, [])
  | qle :: rest => (some qle, rest)

/-- The loop of `log_dispatch_async`: the first matching sink makes the record
queued, once. -/
def log_dispatch_async_loop (entry : LogEntry) : List Logger → World → World
  | [], w => w
  | l :: ls, w =>
    if l.levels &&& entry.level ≠ 0 then
      w.with_queue (alist_append w.logging.queue.queue { e := entry })
    else log_dispatch_async_loop entry ls w

/-- The function `log_dispatch_async`. -/
def log_dispatch_async (entry : LogEntry) (w : World) : World :=
  log_dispatch_async_loop entry w.logging.outputs w

/-- The callback `sync_logger`. -/
def sync_logger (l : Logger) (w : World) : World :=
  w.emit [Event.rw_sync l.out]

/-- The call `list_foreach(&logging.outputs, sync_logger, NULL)`. -/
def sync_loggers : List Logger → World → World
  | [], w => w
  | l :: ls, w => sync_loggers ls (sync_logger l w)

/-! ## The worker thread and the queue -/

/-- One evaluation of the condition of the inner loop of `log_queue_thread`
and, when it holds, of the body of the loop: the state afterwards, and whether
the loop goes on. The entry is popped before the shutdown flag is looked at. -/
def log_queue_thread_iter (w : World) : World × Bool :=
  match alist_pop w.logging.queue.queue with
  | (none, _) => (w, false)
  | (some qle, rest) =>
    let w1 := w.with_queue rest
    if w1.logging.queue.shutdown < 2 then (log_dispatch qle.e w1, true) else (w1, false)

/-- The inner loop of `log_queue_thread`, run until it is left. The first
argument bounds the number of iterations; the queue itself is long enough, as
every iteration that goes on has popped an entry. -/
def log_queue_drain : List QueuedLogEntry → World → World
  | [], w => (log_queue_thread_iter w).1
  | _ :: rest, w =>
    let r := log_queue_thread_iter w
    if r.2 then log_queue_drain rest r.1 else r.1

/-- The worker after a wake-up: it drains the queue and comes back to its wait
(or leaves, when the shutdown flag is set). -/
def log_queue_thread_wake (w : World) : World :=
  log_queue_drain w.logging.queue.queue w

/-- The function `log_queue_shutdown`. -/
def log_queue_shutdown (force_sync : Bool) (env : Env) (w : World) : World :=
  if w.logging.queue.thread = false then w
  else
    let flag : Nat := if env.TAISEI_LOG_ASYNC_FAST_SHUTDOWN && !force_sync then 2 else 1
    (log_queue_thread_wake (w.with_shutdown flag)).queue_released

/-- A step of the asynchronous pipeline: the producer thread hands a record to
`log_dispatch_async`, or the worker evaluates its loop once (it pops the head of
the queue and dispatches it). Both kinds of step touch the queue only under the
mutex of the queue, so an execution is a sequence of such steps. -/
inductive QueueAction where
  | produce (entry : LogEntry)
  | consume

/-- The effect of one step of the pipeline. -/
def queue_step (a : QueueAction) (w : World) : World :=
  match a with
  | QueueAction.produce entry => log_dispatch_async entry w
  | QueueAction.consume => (log_queue_thread_iter w).1

/-- The effect of a schedule, a sequence of steps of the producer and of the
worker in any interleaving. -/
def queue_run : List QueueAction → World → World
  | [], w => w
  | a :: acts, w => queue_run acts (queue_step a w)

/-! ## Shutdown and abort -/

/-- The callback `delete_logger`: the sink is the head of the registry when
`list_foreach` reaches it. -/
def delete_logger (l : Logger) (w : World) : World :=
  { logging := { w.logging with outputs := w.logging.outputs.tail },
    trace := w.trace ++ (if l.formatter.free then [Event.formatter_free l.out] else [])
      ++ [Event.rw_sync l.out, Event.rw_close l.out] }

/-- The call `list_foreach(&logging.outputs, delete_logger, NULL)`. -/
def delete_loggers : List Logger → World → World
  | [], w => w
  | l :: ls, w => delete_loggers ls (delete_logger l w)

/-- The function `log_shutdown`. -/
def log_shutdown (env : Env) (w : World) : World :=
  let w0 : World := { w with logging := { w.logging with initialized := false } }
  let w1 := log_queue_shutdown false env w0
  let w2 := delete_loggers w1.logging.outputs w1
  { w2 with logging := logging_zero }

/-- The message box of `log_abort`, present when `LOG_FATAL_MSGBOX` is defined. -/
def log_abort_msgbox (env : Env) (msg : Option CString) (w : World) : World :=
  if env.LOG_FATAL_MSGBOX then
    match msg, w.logging.err_appendix with
    | some m, some a => w.emit [Event.msgbox (m ++ ['\n', '\n'] ++ a)]
    | some m, none => w.emit [Event.msgbox m]
    | none, some a => w.emit [Event.msgbox a]
    | none, none => w
  else w

/-- The function `log_abort`; the world it returns is the one in which the
process ends. -/
def log_abort (env : Env) (msg : Option CString) (w : World) : World :=
  let w1 := log_abort_msgbox env msg w
  let w2 := log_queue_shutdown true env w1
  let w3 := log_shutdown env w2
  w3.emit [Event.abort]

/-! ## The logging entry points -/

/-- The record built by `log_internal` from the filtered level `lvl`. -/
def log_internal_entry (env : Env) (lvl : LogLevel) (funcname filename : CString) (line : Nat)
    (text : CString) (ticks : Nat) : LogEntry :=
  { message := text ++ (if lvl &&& LOG_FATAL ≠ 0 then env.debug_info else []),
    file := filename, func := funcname, line := line, level := lvl, time := ticks }

/-- The middle part of `log_internal`: the message is staged in `pre_format`
and the record is queued when there is a worker thread, dispatched otherwise. -/
def log_internal_deliver (entry : LogEntry) (w : World) : World :=
  let w1 := w.with_pre_format entry.message
  if w1.logging.queue.thread then log_dispatch_async entry w1 else log_dispatch entry w1

/-- The function `log_internal`; `text` is what the format string and its
arguments render to, `ticks` the value of `SDL_GetTicks()`. -/
def log_internal (env : Env) (lvl : LogLevel) (funcname filename : CString) (line : Nat)
    (text : CString) (ticks : Nat) (w : World) : Outcome :=
  let noabort : Bool := lvl &&& LOG_NOABORT_BIT ≠ 0
  let lvl := lvl &&& w.logging.enabled_log_levels
  if lvl = LOG_NONE then Outcome.returned w
  else
    let entry := log_internal_entry env lvl funcname filename line text ticks
    let w2 := log_internal_deliver entry w
    if lvl &&& LOG_FATAL ≠ 0 then
      if noabort then Outcome.returned (sync_loggers w2.logging.outputs w2)
      else Outcome.aborted (log_abort env (some entry.message) w2)
    else Outcome.returned w2

/-- The function `_taisei_log`. -/
def _taisei_log (env : Env) (lvl : LogLevel) (funcname filename : CString) (line : Nat)
    (text : CString) (ticks : Nat) (w : World) : Outcome :=
  log_internal env lvl funcname filename line text ticks w

/-- The function `_taisei_log_fatal`. -/
def _taisei_log_fatal (env : Env) (lvl : LogLevel) (funcname filename : CString) (line : Nat)
    (text : CString) (ticks : Nat) (w : World) : Outcome :=
  match log_internal env lvl funcname filename line text ticks w with
  | Outcome.aborted w1 => Outcome.aborted w1
  | Outcome.returned w1 => Outcome.aborted (log_abort env none w1)

/-- The function `log_add_output`; `formatter` is the factory that sets up the
formatter of the new sink for its handle. -/
def log_add_output (levels : LogLevel) (output : Option Nat) (formatter : Nat → FormatterObj)
    (w : World) : World :=
  match output with
  | none => w
  | some out =>
    if levels &&& w.logging.enabled_log_levels = 0 then
      w.emit [Event.rw_close out]
    else
      let l : Logger := { formatter := formatter out, out := out, levels := levels }
      { w with logging := { w.logging with outputs := w.logging.outputs ++ [l] } }

/-! ## Sample data -/

/-- A formatter that renders a record as its message and a newline. -/
def sample_formatter : FormatterObj :=
  { format := fun buf e => (buf ++ e.message ++ ['\n'], e.message.length + 1), free := false }

/-- A console sink on handle 1 for errors and fatal errors. -/
def sample_console : Logger :=
  { formatter := sample_formatter, out := 1, levels := LOG_ERROR ||| LOG_FATAL }

/-- A file sink on handle 2 for all severities. -/
def sample_file : Logger :=
  { formatter := sample_formatter, out := 2, levels := LOG_ALL }

/-- An initialized engine with the two sample sinks under the mask `enabled`,
with a worker thread (and the mutex and condition variable of the queue) when
`async` is set. -/
def sample_world (enabled : LogLevel) (async : Bool) : World :=
  { logging :=
      { outputs := [sample_console, sample_file], num_outputs := 0, mutex := true,
        enabled_log_levels := enabled,
        buffers := { pre_format := [], format := [] },
        queue := { thread := async, mutex := async, cond := async, queue := [], shutdown := 0 },
        initialized := true, err_appendix := none },
    trace := [] }

/-- A build with the message box, the graceful shutdown policy and no debug
information. -/
def sample_env : Env :=
  { LOG_FATAL_MSGBOX := true, TAISEI_LOG_ASYNC_FAST_SHUTDOWN := false, debug_info := [] }

/-! ## Level strings -/

/-- The function `toupper` of the C library in the C locale. -/
def toupper (c : Char) : Char := c.toUpper

/-- The table `level_prefix_map`, indexed by the identifiers of the severities. -/
def level_prefix_map : List CString := [['D'], ['I'], ['W'], ['E'], ['F']]

/-- The loop of `chr2lvl` from index `i` on, over the entries of the table that
remain; `c` is already in upper case. -/
def chr2lvl_loop (c : Char) : List CString → Nat → LogLevel
  | [], _ => 0
  | p :: ps, i =>
    if c = p.headD (Char.ofNat 0) then 1 <<< i
    else if c = 'A' then LOG_ALL
    else chr2lvl_loop c ps (i + 1)

/-- The function `chr2lvl`. -/
def chr2lvl (c : Char) : LogLevel :=
  chr2lvl_loop (toupper c) level_prefix_map 0

/-- The loop of `log_parse_levels` over the characters that remain. -/
def log_parse_levels_loop : CString → Bool → LogLevel → LogLevel
  | [], _, lvls => lvls
  | c :: cs, enable, lvls =>
    if c = '+' then log_parse_levels_loop cs true lvls
    else if c = '-' then log_parse_levels_loop cs false lvls
    else if enable then log_parse_levels_loop cs enable (lvls ||| chr2lvl c)
    else log_parse_levels_loop cs enable (lvls &&& bit_not32 (chr2lvl c))

/-- The function `log_parse_levels`; `none` is the null pointer. -/
def log_parse_levels (lvls : LogLevel) (lvlmod : Option CString) : LogLevel :=
  match lvlmod with
  | none => lvls
  | some s => log_parse_levels_loop s true lvls

/-! ## Formatters -/

/-- The function `SDL_MostSignificantBitIndex32` of the SDL library: the index
of the most significant set bit of a 32-bit value, and -1 for zero. -/
def SDL_MostSignificantBitIndex32 (x : Nat) : Int :=
  (List.range 32).foldl (fun acc i => if (x % 2 ^ 32).testBit i then (i : Int) else acc) (-1)

/-- The conversion of an `int` to `uint`. -/
def int_to_uint (z : Int) : Nat := (z % 2 ^ 32).toNat

/-- The macro `INDEX_MAP`: the entry of the table at the index of the most
significant bit of the level, and `none` when the assertion on the index fails. -/
def INDEX_MAP (map : List CString) (lvl : LogLevel) : Option CString :=
  let idx := int_to_uint (SDL_MostSignificantBitIndex32 lvl)
  if idx < map.length then map[idx]? else none

/-- The function `level_prefix`. -/
def level_prefix (lvl : LogLevel) : Option CString := INDEX_MAP level_prefix_map lvl

/-- The conversion `%d` of `printf` applied to a 32-bit value: it is read as a
signed integer. -/
def printf_d (v : Nat) : CString :=
  if v % 2 ^ 32 < 2 ^ 31 then Nat.toDigits 10 (v % 2 ^ 32)
  else '-' :: Nat.toDigits 10 (2 ^ 32 - v % 2 ^ 32)

/-- The flag `-` with a field width in a conversion of `printf`: the text is
left-justified and padded with spaces up to the width. -/
def printf_left (width : Nat) (t : CString) : CString :=
  t ++ List.replicate (width - t.length) ' '

/-- Modelled from the spec: `strbuf_printf` of `util/strbuf.h` appends the
rendered text to the buffer and returns its length. -/
def strbuf_printf (buf : CString) (rendered : CString) : CString × Nat :=
  (buf ++ rendered, rendered.length)

/-- The function `log_fmtconsole_format_plain`, with the format
`"%-9d %s: %s: %s\n"`; `none` when the assertion of `INDEX_MAP` fails. -/
def log_fmtconsole_format_plain (buf : CString) (entry : LogEntry) : Option (CString × Nat) :=
  match level_prefix entry.level with
  | none => none
  | some p =>
    some (strbuf_printf buf
      (printf_left 9 (printf_d entry.time) ++ [' '] ++ p ++ [':', ' '] ++ entry.func
        ++ [':', ' '] ++ entry.message ++ ['\n']))

/-- The table `level_name_map`. -/
def level_name_map : List CString :=
  [['D', 'E', 'B', 'U', 'G'], ['I', 'N', 'F', 'O'], ['W', 'A', 'R', 'N', 'I', 'N', 'G'],
   ['E', 'R', 'R', 'O', 'R'], ['F', 'A', 'T', 'A', 'L']]

/-- The escape character that starts an ANSI sequence. -/
def ESC : Char := Char.ofNat 27

/-- The table `level_ansi_style_map`. -/
def level_ansi_style_map : List CString :=
  [[ESC, '[', '1', ';', '3', '5', 'm'], [ESC, '[', '1', ';', '3', '2', 'm'],
   [ESC, '[', '1', ';', '3', '3', 'm'], [ESC, '[', '1', ';', '3', '1', 'm'],
   [ESC, '[', '1', ';', '3', '1', 'm']]

/-- The function `level_name`. -/
def level_name (lvl : LogLevel) : Option CString := INDEX_MAP level_name_map lvl

/-- The function `level_ansi_style_code`. -/
def level_ansi_style_code (lvl : LogLevel) : Option CString :=
  INDEX_MAP level_ansi_style_map lvl

/-- The function `log_fmtconsole_format_ansi`, with the format
`"\x1b[1;30m%-9d %s%s\x1b[1;30m: \x1b[1;34m%s\x1b[1;30m: \x1b[0m%s\n"`; `none` when
an assertion of `INDEX_MAP` fails. -/
def log_fmtconsole_format_ansi (buf : CString) (entry : LogEntry) : Option (CString × Nat) :=
  match level_ansi_style_code entry.level, level_prefix entry.level with
  | some style, some p =>
    some (strbuf_printf buf
      ([ESC, '[', '1', ';', '3', '0', 'm'] ++ printf_left 9 (printf_d entry.time) ++ [' ']
        ++ style ++ p ++ [ESC, '[', '1', ';', '3', '0', 'm'] ++ [':', ' ']
        ++ [ESC, '[', '1', ';', '3', '4', 'm'] ++ entry.func
        ++ [ESC, '[', '1', ';', '3', '0', 'm'] ++ [':', ' '] ++ [ESC, '[', '0', 'm']
        ++ entry.message ++ ['\n']))
  | _, _ => none

/-- The function `log_fmtfile_format`, with the format `"%d  %s  %s: %s\n"`;
`none` when the assertion of `INDEX_MAP` fails. -/
def log_fmtfile_format (buf : CString) (entry : LogEntry) : Option (CString × Nat) :=
  match level_name entry.level with
  | none => none
  | some name =>
    some (strbuf_printf buf
      (printf_d entry.time ++ [' ', ' '] ++ name ++ [' ', ' '] ++ entry.func ++ [':', ' ']
        ++ entry.message ++ ['\n']))

/-- A built-in formatter as the callback of a sink. Where the assertion of
`INDEX_MAP` fails the callback of the embedding renders nothing; the statements
about sinks with built-in formatters are made where the assertion holds. -/
def builtin_format (f : CString → LogEntry → Option (CString × Nat)) :
    CString → LogEntry → CString × Nat :=
  fun buf entry => (f buf entry).getD (buf, 0)

/-- The function `log_formatter_console`; `supports_ansi` is the value of
`output_supports_ansi_sequences(output)`. No cleanup routine is set. -/
def log_formatter_console (supports_ansi : Bool) (_output : Nat) : FormatterObj :=
  if supports_ansi then
    { format := builtin_format log_fmtconsole_format_ansi, free := false }
  else
    { format := builtin_format log_fmtconsole_format_plain, free := false }

/-- The function `log_formatter_file`. -/
def log_formatter_file (_output : Nat) : FormatterObj :=
  { format := builtin_format log_fmtfile_format, free := false }

/-! ## Object pool (`src/objectpool.c`)

The pool is embedded over a memory of bytes, for a target whose `size_t` and
pointers have 64 bits. An address is a block of allocated memory and an offset in
bytes into it: block 0 is the array `objects` at the end of the allocation of the
pool, block `k + 1` is the extent `extents[k]`. The block sizes are kept with the
pool, and an access that does not lie inside its block is undefined behaviour,
which ends the run with a fault. A byte of memory is either a plain byte or one of
the eight bytes of a stored pointer; zero bytes read as the null pointer, which is
what the code relies on when it takes the members of the pool from `calloc`.
`CASTPTR_ASSUME_ALIGNED` is taken as the cast, and an access through a pointer
that is not aligned is not a fault of the embedding: the statements about the
pool are made for object sizes that keep every slot aligned for `ObjHeader`, and
state that alignment.
The allocation functions are taken to succeed, except that `calloc` with two
arguments returns the null pointer when their product overflows. The counter of
extents and the capacity of the statistics count allocated blocks and slots and
are natural numbers that do not wrap; the sizes and offsets computed in `size_t`
and the usage counter, which a release decrements, wrap at 2^64. The diagnostic
`log_debug` calls of the pool do not touch the pool and are left out. -/

/-- An address, and so the value of an `ObjHeader *` that is not null: `block` is
0 for the array `objects` of the pool and `k + 1` for the extent `extents[k]`;
`offset` counts the bytes from the start of the block. -/
structure Obj where
  block : Nat
  offset : Nat
  deriving DecidableEq

/-- A byte of memory: a plain byte of value `v`, or byte number `k` of the stored
pointer `p`. -/
inductive MemVal where
  | byte (v : Nat)
  | fragment (p : Obj) (k : Nat)
  deriving DecidableEq

/-- The structure `ObjectPool`, with the sizes of the blocks allocated for it
and their memory. -/
structure ObjectPool where
  tag : CString
  size_of_object : Nat
  max_objects : Nat
  usage : Nat
  peak_usage : Nat
  num_extents : Nat
  free_objects : Option Obj
  block_bytes : Nat → Nat
  mem : Obj → MemVal

/-- The size of a pointer, and so of the member `next` of `ObjHeader`. -/
def sizeof_pointer : Nat := 8

/-- A pointer read from the eight bytes at the address `a`: the null pointer from
zero bytes, `p` from the eight bytes of `p` in their order; `none` when the bytes
are not those of one pointer. -/
def load_pointer (mem : Obj → MemVal) (a : Obj) : Option (Option Obj) :=
  match mem a with
  | MemVal.byte _ =>
    if (List.range sizeof_pointer).all
        (fun k => mem { block := a.block, offset := a.offset + k } == MemVal.byte 0) then
      some none
    else none
  | MemVal.fragment p _ =>
    if (List.range sizeof_pointer).all
        (fun k => mem { block := a.block, offset := a.offset + k } == MemVal.fragment p k) then
      some (some p)
    else none

/-- The function `objpool_object_size`. -/
def objpool_object_size (pool : ObjectPool) : Nat := pool.size_of_object

/-- The letter of the severity held in bit `b`. -/
def severity_letter (b : Nat) : Char :=
  match b with
  | 0 => 'D'
  | 1 => 'I'
  | 2 => 'W'
  | 3 => 'E'
  | _ => 'F'

/-- The character `c` is the letter of bit `b` or the letter A, in either case. -/
def names_bit (b : Nat) (c : Char) : Bool :=
  c == severity_letter b || c == (severity_letter b).toLower || c == 'A' || c == 'a'

/-- The character is one of the two signs of a level string. -/
def is_sign (c : Char) : Bool := c == '+' || c == '-'

/-- The mode in which a character stands that comes after `pre`: enable, unless
the nearest sign in front of it is a minus. -/
def enable_mode (pre : CString) : Bool :=
  (pre.filter is_sign).getLast? != some '-'

/-- The mode after `pre` when the mode in front of `pre` is `en`: that of the
last sign of `pre`, or `en` when `pre` has no sign. -/
def mode_after (en : Bool) (pre : CString) : Bool :=
  match (pre.filter is_sign).getLast? with
  | none => en
  | some s => s != '-'


/-- The world in which a call ends. -/
def Outcome.world : Outcome → World
  | Outcome.returned w => w
  | Outcome.aborted w => w

/-- Whether a call came back to its caller. -/
def Outcome.is_returned : Outcome → Bool
  | Outcome.returned _ => true
  | Outcome.aborted _ => false

/-- The write that `log_dispatch` issues for a sink that accepts the record. -/
def write_of (entry : LogEntry) (l : Logger) : Event :=
  Event.rw_write l.out ((l.formatter.format [] entry).1.take (l.formatter.format [] entry).2)

/-- The writes of one dispatch of a record over a registry: one for each sink
whose mask meets the level of the record, in the order of the registry. -/
def dispatch_events (outputs : List Logger) (entry : LogEntry) : List Event :=
  (outputs.filter (fun l => l.levels &&& entry.level ≠ 0)).map (write_of entry)

/-- Whether an effect is a write to an output handle. -/
def Event.is_write : Event → Bool
  | Event.rw_write _ _ => true
  | _ => false

/-- The writes among a list of effects. -/
def writes (t : List Event) : List Event := t.filter Event.is_write

/-- The effects of removing one sink at shutdown. -/
def delete_events (l : Logger) : List Event :=
  (if l.formatter.free then [Event.formatter_free l.out] else [])
    ++ [Event.rw_sync l.out, Event.rw_close l.out]

/-- The writes of dispatching the entries of a queue, oldest first. -/
def queue_events (outputs : List Logger) (q : List QueuedLogEntry) : List Event :=
  q.flatMap (fun qle => dispatch_events outputs qle.e)

/-- The effects of the message box of `log_abort`. -/
def msgbox_events (env : Env) (msg appendix : Option CString) : List Event :=
  if env.LOG_FATAL_MSGBOX then
    match msg, appendix with
    | some m, some a => [Event.msgbox (m ++ ['\n', '\n'] ++ a)]
    | some m, none => [Event.msgbox m]
    | none, some a => [Event.msgbox a]
    | none, none => []
  else []

/-- The writes of the worker while `log_queue_shutdown` waits for it: the whole
queue under the graceful policy, nothing under the fast one or without a
worker. -/
def shutdown_events (force_sync : Bool) (env : Env) (w : World) : List Event :=
  if w.logging.queue.thread && !(env.TAISEI_LOG_ASYNC_FAST_SHUTDOWN && !force_sync) then
    queue_events w.logging.outputs w.logging.queue.queue
  else []

/-- What `log_dispatch_async` adds to the queue for a record: the record once
when some sink accepts it, nothing otherwise. -/
def enqueued (outputs : List Logger) (entry : LogEntry) : List QueuedLogEntry :=
  if outputs.any (fun l => l.levels &&& entry.level ≠ 0) then [{ e := entry }] else []

/-- A record of level Error used in examples. -/
def sample_entry : LogEntry :=
  { message := ['o', 'l', 'd'], file := ['c'], func := ['f'], time := 3, line := 1,
    level := LOG_ERROR }

/-- The records that the producer gets queued along a schedule, in the order in
which it issues them. -/
def produced (outputs : List Logger) : List QueueAction → List QueuedLogEntry
  | [] => []
  | QueueAction.produce entry :: acts => enqueued outputs entry ++ produced outputs acts
  | QueueAction.consume :: acts => produced outputs acts

/-- The line of the plain console formatter as the spec words it: timestamp, two
spaces, the letter of the severity, the function and the message. -/
def plain_line_two_spaces (entry : LogEntry) (letter : Char) : CString :=
  Nat.toDigits 10 entry.time ++ [' ', ' ', letter, ':', ' '] ++ entry.func ++ [':', ' ']
    ++ entry.message ++ ['\n']

/-- The full name of the severity held in bit `b`. -/
def severity_name (b : Nat) : CString :=
  match b with
  | 0 => ['D', 'E', 'B', 'U', 'G']
  | 1 => ['I', 'N', 'F', 'O']
  | 2 => ['W', 'A', 'R', 'N', 'I', 'N', 'G']
  | 3 => ['E', 'R', 'R', 'O', 'R']
  | _ => ['F', 'A', 'T', 'A', 'L']

/-- The console sink of the example of the spec: handle `out`, mask Error and
Fatal, the console formatter chosen for the terminal. -/
def example_console (supports_ansi : Bool) (out : Nat) : Logger :=
  { formatter := log_formatter_console supports_ansi out, out := out,
    levels := LOG_ERROR ||| LOG_FATAL }

/-- The engine of the example of the spec, in synchronous mode: enabled mask
Info, Warning, Error and Fatal, and the one console sink. -/
def example_world (supports_ansi : Bool) (out : Nat) : World :=
  { logging :=
      { outputs := [example_console supports_ansi out], num_outputs := 0, mutex := true,
        enabled_log_levels := LOG_INFO ||| LOG_WARN ||| LOG_ERROR ||| LOG_FATAL,
        buffers := { pre_format := [], format := [] },
        queue := { thread := false, mutex := false, cond := false, queue := [], shutdown := 0 },
        initialized := true, err_appendix := none },
    trace := [] }

/-- The number of records the worker has popped and dispatched along a schedule
that starts with `n` records in the queue: each turn of the worker on a queue
that is not empty counts for one. -/
def dispatched_count (outputs : List Logger) : List QueueAction → Nat → Nat
  | [], _ => 0
  | QueueAction.produce entry :: acts, n =>
    dispatched_count outputs acts (n + (enqueued outputs entry).length)
  | QueueAction.consume :: acts, 0 => dispatched_count outputs acts 0
  | QueueAction.consume :: acts, n + 1 => dispatched_count outputs acts n + 1

/-- The worker taking `turns` turns of its loop, with no step of a producer in
between. -/
def worker_turns (turns : Nat) : List QueueAction :=
  List.replicate turns QueueAction.consume

/-- The free list of a pool as a list: `chain` is the sequence of addresses met
from the head `h` by reading the `next` pointers up to the null pointer. -/
def IsChain (mem : Obj → MemVal) : Option Obj → List Obj → Prop
  | h, [] => h = none
  | h, o :: chain => h = some o ∧ ∃ next, load_pointer mem o = some next ∧ IsChain mem next chain

@[simp] theorem with_format_logging_outputs (w : World) (f : CString) :
    (w.with_format f).logging.outputs = w.logging.outputs := rfl

@[simp] theorem with_format_queue (w : World) (f : CString) :
    (w.with_format f).logging.queue = w.logging.queue := rfl

@[simp] theorem with_format_trace (w : World) (f : CString) :
    (w.with_format f).trace = w.trace := rfl

@[simp] theorem with_format_with_format (w : World) (f g : CString) :
    (w.with_format f).with_format g = w.with_format g := rfl

@[simp] theorem emit_logging (w : World) (evs : List Event) :
    (w.emit evs).logging = w.logging := rfl

@[simp] theorem emit_trace (w : World) (evs : List Event) :
    (w.emit evs).trace = w.trace ++ evs := rfl

@[simp] theorem emit_emit (w : World) (e1 e2 : List Event) :
    (w.emit e1).emit e2 = w.emit (e1 ++ e2) := by
  simp [World.emit]

@[simp] theorem emit_nil (w : World) : w.emit [] = w := by
  simp [World.emit]

@[simp] theorem emit_with_format (w : World) (evs : List Event) (f : CString) :
    (w.emit evs).with_format f = (w.with_format f).emit evs := rfl

@[simp] theorem with_queue_outputs (w : World) (q : List QueuedLogEntry) :
    (w.with_queue q).logging.outputs = w.logging.outputs := rfl

@[simp] theorem with_queue_trace (w : World) (q : List QueuedLogEntry) :
    (w.with_queue q).trace = w.trace := rfl

@[simp] theorem with_queue_queue (w : World) (q : List QueuedLogEntry) :
    (w.with_queue q).logging.queue.queue = q := rfl

@[simp] theorem with_queue_shutdown (w : World) (q : List QueuedLogEntry) :
    (w.with_queue q).logging.queue.shutdown = w.logging.queue.shutdown := rfl

@[simp] theorem with_queue_with_queue (w : World) (q r : List QueuedLogEntry) :
    (w.with_queue q).with_queue r = w.with_queue r := rfl

@[simp] theorem with_format_with_queue (w : World) (f : CString) (q : List QueuedLogEntry) :
    (w.with_format f).with_queue q = (w.with_queue q).with_format f := rfl

@[simp] theorem emit_with_queue (w : World) (evs : List Event) (q : List QueuedLogEntry) :
    (w.emit evs).with_queue q = (w.with_queue q).emit evs := rfl

theorem with_queue_self (w : World) : w.with_queue w.logging.queue.queue = w := rfl

theorem with_format_self (w : World) : w.with_format w.logging.buffers.format = w := rfl

theorem log_dispatch_loop_eq (entry : LogEntry) (ls : List Logger) (w : World) :
    ∃ f, log_dispatch_loop entry ls w = (w.with_format f).emit (dispatch_events ls entry) := by
  induction ls generalizing w with
  | nil => exact ⟨w.logging.buffers.format, by simp [log_dispatch_loop, dispatch_events, with_format_self]⟩
  | cons l ls ih =>
    obtain ⟨f, hf⟩ := ih (log_dispatch_one entry l w)
    by_cases h : l.levels &&& entry.level = 0
    · refine ⟨f, ?_⟩
      rw [log_dispatch_loop, hf]
      simp [log_dispatch_one, h, dispatch_events]
    · refine ⟨f, ?_⟩
      rw [log_dispatch_loop, hf]
      simp [log_dispatch_one, h, dispatch_events, write_of]

theorem log_dispatch_eq (entry : LogEntry) (w : World) :
    ∃ f, log_dispatch entry w
      = (w.with_format f).emit (dispatch_events w.logging.outputs entry) :=
  log_dispatch_loop_eq entry w.logging.outputs w

theorem sync_loggers_eq (ls : List Logger) (w : World) :
    sync_loggers ls w = w.emit (ls.map (fun l => Event.rw_sync l.out)) := by
  induction ls generalizing w with
  | nil => simp [sync_loggers]
  | cons l ls ih => rw [sync_loggers, ih]; simp [sync_logger]

theorem delete_loggers_eq (ls : List Logger) (w : World) :
    delete_loggers ls w =
      { logging := { w.logging with outputs := w.logging.outputs.drop ls.length },
        trace := w.trace ++ ls.flatMap delete_events } := by
  induction ls generalizing w with
  | nil => simp [delete_loggers]
  | cons l ls ih =>
    rw [delete_loggers, ih]
    simp [delete_logger, delete_events, List.flatMap_cons]

theorem log_queue_drain_slow (q : List QueuedLogEntry) (w : World)
    (hq : w.logging.queue.queue = q) (hflag : w.logging.queue.shutdown < 2) :
    ∃ f, log_queue_drain q w =
      ((w.with_queue []).with_format f).emit (queue_events w.logging.outputs q) := by
  induction q generalizing w with
  | nil =>
    refine ⟨w.logging.buffers.format, ?_⟩
    have hw : w.with_queue [] = w := by rw [← hq]; rfl
    simp [log_queue_drain, log_queue_thread_iter, alist_pop, hq, queue_events, hw]
    rfl
  | cons qle rest ih =>
    obtain ⟨f, hf⟩ := log_dispatch_eq qle.e (w.with_queue rest)
    have hstep : log_queue_drain (qle :: rest) w
        = log_queue_drain rest (log_dispatch qle.e (w.with_queue rest)) := by
      simp [log_queue_drain, log_queue_thread_iter, hq, alist_pop, hflag]
    rw [hstep, hf]
    obtain ⟨g, hg⟩ := ih
      (((w.with_queue rest).with_format f).emit
        (dispatch_events (w.with_queue rest).logging.outputs qle.e)) rfl hflag
    refine ⟨g, ?_⟩
    rw [hg]
    simp [queue_events, List.flatMap_cons]

theorem log_queue_drain_fast (q : List QueuedLogEntry) (w : World)
    (hq : w.logging.queue.queue = q) (hflag : ¬ w.logging.queue.shutdown < 2) :
    log_queue_drain q w = w.with_queue q.tail := by
  cases q with
  | nil =>
    have hw : w.with_queue [] = w := by rw [← hq]; rfl
    simp [log_queue_drain, log_queue_thread_iter, alist_pop, hq, hw]
  | cons qle rest =>
    simp [log_queue_drain, log_queue_thread_iter, hq, alist_pop, hflag]

@[simp] theorem with_shutdown_outputs (w : World) (n : Nat) :
    (w.with_shutdown n).logging.outputs = w.logging.outputs := rfl

@[simp] theorem with_shutdown_trace (w : World) (n : Nat) :
    (w.with_shutdown n).trace = w.trace := rfl

@[simp] theorem with_shutdown_queue (w : World) (n : Nat) :
    (w.with_shutdown n).logging.queue.queue = w.logging.queue.queue := rfl

@[simp] theorem with_shutdown_shutdown (w : World) (n : Nat) :
    (w.with_shutdown n).logging.queue.shutdown = n := rfl

@[simp] theorem with_shutdown_appendix (w : World) (n : Nat) :
    (w.with_shutdown n).logging.err_appendix = w.logging.err_appendix := rfl

@[simp] theorem queue_released_outputs (w : World) :
    w.queue_released.logging.outputs = w.logging.outputs := rfl

@[simp] theorem queue_released_trace (w : World) : w.queue_released.trace = w.trace := rfl

@[simp] theorem queue_released_thread (w : World) :
    w.queue_released.logging.queue.thread = false := rfl

@[simp] theorem queue_released_queue (w : World) :
    w.queue_released.logging.queue.queue = w.logging.queue.queue := rfl

@[simp] theorem queue_released_shutdown (w : World) :
    w.queue_released.logging.queue.shutdown = w.logging.queue.shutdown := rfl

@[simp] theorem queue_released_appendix (w : World) :
    w.queue_released.logging.err_appendix = w.logging.err_appendix := rfl

@[simp] theorem with_format_appendix (w : World) (f : CString) :
    (w.with_format f).logging.err_appendix = w.logging.err_appendix := rfl

@[simp] theorem with_queue_appendix (w : World) (q : List QueuedLogEntry) :
    (w.with_queue q).logging.err_appendix = w.logging.err_appendix := rfl

theorem log_queue_shutdown_sync (force_sync : Bool) (env : Env) (w : World)
    (h : w.logging.queue.thread = false) : log_queue_shutdown force_sync env w = w := by
  simp [log_queue_shutdown, h]

theorem log_queue_shutdown_graceful (force_sync : Bool) (env : Env) (w : World)
    (h : w.logging.queue.thread = true)
    (hpol : (env.TAISEI_LOG_ASYNC_FAST_SHUTDOWN && !force_sync) = false) :
    ∃ f, log_queue_shutdown force_sync env w =
      ((((w.with_shutdown 1).with_queue []).with_format f).emit
        (queue_events w.logging.outputs w.logging.queue.queue)).queue_released := by
  obtain ⟨f, hf⟩ := log_queue_drain_slow w.logging.queue.queue (w.with_shutdown 1)
    rfl (by simp)
  refine ⟨f, ?_⟩
  unfold log_queue_shutdown log_queue_thread_wake
  rw [if_neg (by simp [h])]
  simp only [hpol, Bool.false_eq_true, if_false]
  rw [with_shutdown_queue, hf]
  rfl

theorem log_queue_shutdown_fast (force_sync : Bool) (env : Env) (w : World)
    (h : w.logging.queue.thread = true)
    (hpol : (env.TAISEI_LOG_ASYNC_FAST_SHUTDOWN && !force_sync) = true) :
    log_queue_shutdown force_sync env w =
      ((w.with_shutdown 2).with_queue w.logging.queue.queue.tail).queue_released := by
  have hd := log_queue_drain_fast w.logging.queue.queue (w.with_shutdown 2) rfl (by simp)
  unfold log_queue_shutdown log_queue_thread_wake
  rw [if_neg (by simp [h])]
  simp only [hpol, if_true]
  rw [with_shutdown_queue, hd]

theorem log_queue_shutdown_trace (force_sync : Bool) (env : Env) (w : World) :
    (log_queue_shutdown force_sync env w).trace = w.trace ++ shutdown_events force_sync env w := by
  cases h : w.logging.queue.thread with
  | false => simp [log_queue_shutdown_sync _ _ _ h, shutdown_events, h]
  | true =>
    cases hpol : (env.TAISEI_LOG_ASYNC_FAST_SHUTDOWN && !force_sync) with
    | false =>
      obtain ⟨f, hf⟩ := log_queue_shutdown_graceful force_sync env w h hpol
      simp [hf, shutdown_events, h, hpol]
    | true =>
      simp [log_queue_shutdown_fast force_sync env w h hpol, shutdown_events, h, hpol]

theorem log_queue_shutdown_outputs (force_sync : Bool) (env : Env) (w : World) :
    (log_queue_shutdown force_sync env w).logging.outputs = w.logging.outputs := by
  cases h : w.logging.queue.thread with
  | false => simp [log_queue_shutdown_sync _ _ _ h]
  | true =>
    cases hpol : (env.TAISEI_LOG_ASYNC_FAST_SHUTDOWN && !force_sync) with
    | false =>
      obtain ⟨f, hf⟩ := log_queue_shutdown_graceful force_sync env w h hpol
      simp [hf]
    | true => simp [log_queue_shutdown_fast force_sync env w h hpol]

theorem log_queue_shutdown_thread (force_sync : Bool) (env : Env) (w : World) :
    (log_queue_shutdown force_sync env w).logging.queue.thread = false := by
  cases h : w.logging.queue.thread with
  | false => simp [log_queue_shutdown_sync _ _ _ h, h]
  | true =>
    cases hpol : (env.TAISEI_LOG_ASYNC_FAST_SHUTDOWN && !force_sync) with
    | false =>
      obtain ⟨f, hf⟩ := log_queue_shutdown_graceful force_sync env w h hpol
      simp [hf]
    | true => simp [log_queue_shutdown_fast force_sync env w h hpol]

theorem log_queue_shutdown_appendix (force_sync : Bool) (env : Env) (w : World) :
    (log_queue_shutdown force_sync env w).logging.err_appendix = w.logging.err_appendix := by
  cases h : w.logging.queue.thread with
  | false => simp [log_queue_shutdown_sync _ _ _ h]
  | true =>
    cases hpol : (env.TAISEI_LOG_ASYNC_FAST_SHUTDOWN && !force_sync) with
    | false =>
      obtain ⟨f, hf⟩ := log_queue_shutdown_graceful force_sync env w h hpol
      simp [hf]
    | true => simp [log_queue_shutdown_fast force_sync env w h hpol]

theorem log_shutdown_eq (env : Env) (w : World) :
    log_shutdown env w =
      { logging := logging_zero,
        trace := w.trace ++ shutdown_events false env w
          ++ w.logging.outputs.flatMap delete_events } := by
  simp only [log_shutdown]
  rw [delete_loggers_eq, log_queue_shutdown_outputs, log_queue_shutdown_trace]
  simp [shutdown_events]

theorem log_abort_msgbox_eq (env : Env) (msg : Option CString) (w : World) :
    log_abort_msgbox env msg w = w.emit (msgbox_events env msg w.logging.err_appendix) := by
  unfold log_abort_msgbox msgbox_events
  split
  · split <;> simp_all
  · simp

theorem log_abort_eq (env : Env) (msg : Option CString) (w : World) :
    log_abort env msg w =
      { logging := logging_zero,
        trace := w.trace ++ msgbox_events env msg w.logging.err_appendix
          ++ shutdown_events true env w
          ++ w.logging.outputs.flatMap delete_events ++ [Event.abort] } := by
  simp only [log_abort]
  rw [log_shutdown_eq, log_queue_shutdown_trace, log_queue_shutdown_outputs, log_abort_msgbox_eq]
  simp [shutdown_events, log_queue_shutdown_thread, World.emit]

/-! ## Writes among the effects -/

theorem writes_append (a b : List Event) : writes (a ++ b) = writes a ++ writes b := by
  simp [writes]

theorem writes_dispatch_events (ls : List Logger) (e : LogEntry) :
    writes (dispatch_events ls e) = dispatch_events ls e := by
  simp only [writes, List.filter_eq_self, dispatch_events, List.mem_map]
  rintro a ⟨l, -, rfl⟩
  rfl

theorem writes_queue_events (ls : List Logger) (q : List QueuedLogEntry) :
    writes (queue_events ls q) = queue_events ls q := by
  induction q with
  | nil => rfl
  | cons qle q ih =>
    simp only [queue_events, List.flatMap_cons] at ih ⊢
    rw [writes_append, writes_dispatch_events, ih]

theorem writes_sync (ls : List Logger) :
    writes (ls.map (fun l => Event.rw_sync l.out)) = [] := by
  simp only [writes, List.filter_eq_nil_iff, List.mem_map]
  rintro a ⟨l, -, rfl⟩
  simp [Event.is_write]

theorem writes_delete (ls : List Logger) : writes (ls.flatMap delete_events) = [] := by
  simp only [writes, List.filter_eq_nil_iff, List.mem_flatMap]
  rintro a ⟨l, -, ha⟩
  unfold delete_events at ha
  split at ha <;> simp at ha <;> rcases ha with rfl | rfl | rfl <;> simp [Event.is_write]

theorem writes_msgbox (env : Env) (msg a : Option CString) :
    writes (msgbox_events env msg a) = [] := by
  unfold msgbox_events
  split
  · split <;> simp [writes, Event.is_write]
  · rfl

theorem shutdown_events_sync (force_sync : Bool) (env : Env) (w : World)
    (h : w.logging.queue.thread = false) : shutdown_events force_sync env w = [] := by
  simp [shutdown_events, h]

/-! ## The cases of `log_internal` -/

@[simp] theorem with_pre_format_outputs (w : World) (m : CString) :
    (w.with_pre_format m).logging.outputs = w.logging.outputs := rfl

@[simp] theorem with_pre_format_queue (w : World) (m : CString) :
    (w.with_pre_format m).logging.queue = w.logging.queue := rfl

@[simp] theorem with_pre_format_trace (w : World) (m : CString) :
    (w.with_pre_format m).trace = w.trace := rfl

@[simp] theorem with_pre_format_appendix (w : World) (m : CString) :
    (w.with_pre_format m).logging.err_appendix = w.logging.err_appendix := rfl

@[simp] theorem with_pre_format_enabled (w : World) (m : CString) :
    (w.with_pre_format m).logging.enabled_log_levels = w.logging.enabled_log_levels := rfl

@[simp] theorem with_format_enabled (w : World) (f : CString) :
    (w.with_format f).logging.enabled_log_levels = w.logging.enabled_log_levels := rfl

@[simp] theorem with_queue_enabled (w : World) (q : List QueuedLogEntry) :
    (w.with_queue q).logging.enabled_log_levels = w.logging.enabled_log_levels := rfl

theorem log_internal_filtered (env : Env) (L : LogLevel) (funcname filename : CString)
    (line : Nat) (text : CString) (ticks : Nat) (w : World)
    (h0 : L &&& w.logging.enabled_log_levels = LOG_NONE) :
    log_internal env L funcname filename line text ticks w = Outcome.returned w := by
  simp [log_internal, h0]

theorem log_internal_plain (env : Env) (L : LogLevel) (funcname filename : CString)
    (line : Nat) (text : CString) (ticks : Nat) (w : World)
    (h0 : L &&& w.logging.enabled_log_levels ≠ LOG_NONE)
    (hfatal : L &&& w.logging.enabled_log_levels &&& LOG_FATAL = 0) :
    log_internal env L funcname filename line text ticks w =
      Outcome.returned (log_internal_deliver
        (log_internal_entry env (L &&& w.logging.enabled_log_levels) funcname filename line
          text ticks) w) := by
  simp [log_internal, h0, hfatal]

theorem log_internal_noabort (env : Env) (L : LogLevel) (funcname filename : CString)
    (line : Nat) (text : CString) (ticks : Nat) (w : World)
    (h0 : L &&& w.logging.enabled_log_levels ≠ LOG_NONE)
    (hfatal : L &&& w.logging.enabled_log_levels &&& LOG_FATAL ≠ 0)
    (hna : L &&& LOG_NOABORT_BIT ≠ 0) :
    log_internal env L funcname filename line text ticks w =
      Outcome.returned (sync_loggers
        (log_internal_deliver
          (log_internal_entry env (L &&& w.logging.enabled_log_levels) funcname filename line
            text ticks) w).logging.outputs
        (log_internal_deliver
          (log_internal_entry env (L &&& w.logging.enabled_log_levels) funcname filename line
            text ticks) w)) := by
  simp [log_internal, h0, hfatal, hna]

theorem log_internal_abort (env : Env) (L : LogLevel) (funcname filename : CString)
    (line : Nat) (text : CString) (ticks : Nat) (w : World)
    (h0 : L &&& w.logging.enabled_log_levels ≠ LOG_NONE)
    (hfatal : L &&& w.logging.enabled_log_levels &&& LOG_FATAL ≠ 0)
    (hna : L &&& LOG_NOABORT_BIT = 0) :
    log_internal env L funcname filename line text ticks w =
      Outcome.aborted (log_abort env
        (some (log_internal_entry env (L &&& w.logging.enabled_log_levels) funcname filename
          line text ticks).message)
        (log_internal_deliver
          (log_internal_entry env (L &&& w.logging.enabled_log_levels) funcname filename line
            text ticks) w)) := by
  simp [log_internal, h0, hfatal, hna]

theorem log_internal_deliver_sync (entry : LogEntry) (w : World)
    (hsync : w.logging.queue.thread = false) :
    ∃ f, log_internal_deliver entry w =
      ((w.with_pre_format entry.message).with_format f).emit
        (dispatch_events w.logging.outputs entry) := by
  obtain ⟨f, hf⟩ := log_dispatch_eq entry (w.with_pre_format entry.message)
  exact ⟨f, by simp [log_internal_deliver, hsync, hf]⟩

/-! ## C1: filtering and dispatch in synchronous mode -/

/-- C1. In synchronous mode (no worker thread) a call of `log_internal` with
requested level `L` under the enabled mask `M` adds to the trace exactly one
write for each sink `S` of the registry with `L & M & S.levels` non-empty, in
the order of the registry, each carrying the record as formatted by the sink,
and no other write; when `L & M` is `LOG_NONE` the call returns with the world
unchanged (no buffer touched, no effect). -/
theorem log_internal_sync_dispatch (env : Env) (L : LogLevel) (funcname filename : CString)
    (line : Nat) (text : CString) (ticks : Nat) (w : World)
    (hsync : w.logging.queue.thread = false) :
    (∃ evs, (log_internal env L funcname filename line text ticks w).world.trace
          = w.trace ++ evs ∧
        writes evs =
          (w.logging.outputs.filter
            (fun S => L &&& w.logging.enabled_log_levels &&& S.levels ≠ 0)).map
            (write_of (log_internal_entry env (L &&& w.logging.enabled_log_levels)
              funcname filename line text ticks))) ∧
      (L &&& w.logging.enabled_log_levels = LOG_NONE →
        log_internal env L funcname filename line text ticks w = Outcome.returned w) := by
  have hfilter : ∀ e : LogEntry, e.level = L &&& w.logging.enabled_log_levels →
      dispatch_events w.logging.outputs e =
        (w.logging.outputs.filter
          (fun S => L &&& w.logging.enabled_log_levels &&& S.levels ≠ 0)).map (write_of e) := by
    intro e he
    unfold dispatch_events
    congr 1
    apply List.filter_congr
    intro S _
    rw [he, Nat.land_comm]
  by_cases h0 : L &&& w.logging.enabled_log_levels = LOG_NONE
  · refine ⟨⟨[], ?_, ?_⟩, fun _ => log_internal_filtered _ _ _ _ _ _ _ _ h0⟩
    · simp [log_internal_filtered _ _ _ _ _ _ _ _ h0, Outcome.world]
    · have : ∀ S : Logger, L &&& w.logging.enabled_log_levels &&& S.levels = 0 := by
        intro S; rw [h0]; simp [LOG_NONE]
      simp [writes, this]
  · refine ⟨?_, fun h => absurd h h0⟩
    obtain ⟨f, hf⟩ := log_internal_deliver_sync
      (log_internal_entry env (L &&& w.logging.enabled_log_levels) funcname filename line
        text ticks) w hsync
    by_cases hfatal : L &&& w.logging.enabled_log_levels &&& LOG_FATAL = 0
    · refine ⟨dispatch_events w.logging.outputs (log_internal_entry env
          (L &&& w.logging.enabled_log_levels) funcname filename line text ticks), ?_, ?_⟩
      · rw [log_internal_plain _ _ _ _ _ _ _ _ h0 hfatal, hf]
        simp [Outcome.world]
      · rw [writes_dispatch_events]
        exact hfilter _ rfl
    · by_cases hna : L &&& LOG_NOABORT_BIT = 0
      · refine ⟨dispatch_events w.logging.outputs (log_internal_entry env
            (L &&& w.logging.enabled_log_levels) funcname filename line text ticks)
          ++ (msgbox_events env (some (log_internal_entry env
              (L &&& w.logging.enabled_log_levels) funcname filename line text ticks).message)
              w.logging.err_appendix
            ++ w.logging.outputs.flatMap delete_events ++ [Event.abort]), ?_, ?_⟩
        · rw [log_internal_abort _ _ _ _ _ _ _ _ h0 hfatal hna, hf]
          simp [Outcome.world, log_abort_eq, shutdown_events_sync, hsync]
        · rw [writes_append, writes_append, writes_append, writes_dispatch_events,
            writes_msgbox, writes_delete]
          simp only [writes, Event.is_write, List.filter_cons, List.filter_nil,
            Bool.false_eq_true, if_false, List.append_nil]
          exact hfilter _ rfl
      · refine ⟨dispatch_events w.logging.outputs (log_internal_entry env
            (L &&& w.logging.enabled_log_levels) funcname filename line text ticks)
          ++ w.logging.outputs.map (fun l => Event.rw_sync l.out), ?_, ?_⟩
        · rw [log_internal_noabort _ _ _ _ _ _ _ _ h0 hfatal hna, hf]
          simp [Outcome.world, sync_loggers_eq]
        · rw [writes_append, writes_dispatch_events, writes_sync, List.append_nil]
          exact hfilter _ rfl

/-! ## C2: level strings -/

theorem toupper_cases (c : Char) :
    toupper c = c ∨ ∃ n, 97 ≤ n ∧ n ≤ 122 ∧ c = Char.ofNat n ∧ toupper c = Char.ofNat (n - 32) := by
  unfold toupper Char.toUpper
  simp only []
  split
  · rename_i h
    exact Or.inr ⟨c.toNat, h.1, h.2, (Char.ofNat_toNat c).symm, rfl⟩
  · exact Or.inl rfl

theorem chr2lvl_unfold (c : Char) :
    chr2lvl c =
      if toupper c = 'D' then 1 else if toupper c = 'A' then 31
      else if toupper c = 'I' then 2 else if toupper c = 'W' then 4
      else if toupper c = 'E' then 8 else if toupper c = 'F' then 16 else 0 := by
  simp only [chr2lvl, chr2lvl_loop, level_prefix_map, List.headD_cons]
  split_ifs <;> rfl

theorem chr2lvl_cases (c : Char) :
    ((c = 'D' ∨ c = 'd') ∧ chr2lvl c = 1) ∨ ((c = 'I' ∨ c = 'i') ∧ chr2lvl c = 2)
      ∨ ((c = 'W' ∨ c = 'w') ∧ chr2lvl c = 4) ∨ ((c = 'E' ∨ c = 'e') ∧ chr2lvl c = 8)
      ∨ ((c = 'F' ∨ c = 'f') ∧ chr2lvl c = 16) ∨ ((c = 'A' ∨ c = 'a') ∧ chr2lvl c = 31)
      ∨ ((c ≠ 'D' ∧ c ≠ 'd' ∧ c ≠ 'I' ∧ c ≠ 'i' ∧ c ≠ 'W' ∧ c ≠ 'w' ∧ c ≠ 'E' ∧ c ≠ 'e'
          ∧ c ≠ 'F' ∧ c ≠ 'f' ∧ c ≠ 'A' ∧ c ≠ 'a') ∧ chr2lvl c = 0) := by
  rcases toupper_cases c with h | ⟨n, h1, h2, rfl, h⟩
  · by_cases hD : c = 'D'
    · subst hD; decide
    by_cases hA : c = 'A'
    · subst hA; decide
    by_cases hI : c = 'I'
    · subst hI; decide
    by_cases hW : c = 'W'
    · subst hW; decide
    by_cases hE : c = 'E'
    · subst hE; decide
    by_cases hF : c = 'F'
    · subst hF; decide
    have hlow : ∀ d : Char, toupper d ≠ d → c ≠ d := by
      intro d hd hcd
      exact hd (hcd ▸ h)
    have hz : chr2lvl c = 0 := by
      rw [chr2lvl_unfold, h]
      simp only [hD, hA, hI, hW, hE, hF, if_false]
    refine Or.inr (Or.inr (Or.inr (Or.inr (Or.inr (Or.inr ⟨⟨hD, ?_, hI, ?_, hW, ?_, hE, ?_,
      hF, ?_, hA, ?_⟩, hz⟩))))) <;> exact hlow _ (by decide)
  · interval_cases n <;> decide

theorem testBit_chr2lvl (b : Nat) (hb : b < 5) (c : Char) :
    (chr2lvl c).testBit b = names_bit b c := by
  rcases chr2lvl_cases c with ⟨hc, h⟩ | ⟨hc, h⟩ | ⟨hc, h⟩ | ⟨hc, h⟩ | ⟨hc, h⟩ | ⟨hc, h⟩ | ⟨hc, h⟩
  all_goals rw [h]
  · rcases hc with rfl | rfl <;> interval_cases b <;> decide
  · rcases hc with rfl | rfl <;> interval_cases b <;> decide
  · rcases hc with rfl | rfl <;> interval_cases b <;> decide
  · rcases hc with rfl | rfl <;> interval_cases b <;> decide
  · rcases hc with rfl | rfl <;> interval_cases b <;> decide
  · rcases hc with rfl | rfl <;> interval_cases b <;> decide
  · obtain ⟨h1, h2, h3, h4, h5, h6, h7, h8, h9, h10, h11, h12⟩ := hc
    interval_cases b <;> simp [names_bit, severity_letter, h1, h2, h3, h4, h5, h6, h7, h8, h9,
      h10, h11, h12]

theorem chr2lvl_range (c : Char) :
    chr2lvl c = 0 ∨ chr2lvl c = 1 ∨ chr2lvl c = 2 ∨ chr2lvl c = 4 ∨ chr2lvl c = 8
      ∨ chr2lvl c = 16 ∨ chr2lvl c = 31 := by
  rcases chr2lvl_cases c with ⟨-, h⟩ | ⟨-, h⟩ | ⟨-, h⟩ | ⟨-, h⟩ | ⟨-, h⟩ | ⟨-, h⟩ | ⟨-, h⟩ <;>
    simp [h]

theorem testBit_bit_not32_chr2lvl (b : Nat) (hb : b < 5) (c : Char) :
    (bit_not32 (chr2lvl c)).testBit b = !(chr2lvl c).testBit b := by
  rcases chr2lvl_range c with h | h | h | h | h | h | h <;> rw [h] <;>
    interval_cases b <;> decide

theorem testBit_enable (b : Nat) (hb : b < 5) (m : LogLevel) (c : Char) :
    (m ||| chr2lvl c).testBit b = (m.testBit b || names_bit b c) := by
  rw [Nat.testBit_or, testBit_chr2lvl b hb]

theorem testBit_disable (b : Nat) (hb : b < 5) (m : LogLevel) (c : Char) :
    (m &&& bit_not32 (chr2lvl c)).testBit b = (m.testBit b && !names_bit b c) := by
  rw [Nat.testBit_and, testBit_bit_not32_chr2lvl b hb, testBit_chr2lvl b hb]

theorem names_bit_not_sign (b : Nat) (hb : b < 5) (c : Char) (h : names_bit b c = true) :
    c ≠ '+' ∧ c ≠ '-' := by
  constructor <;> rintro rfl <;> interval_cases b <;> exact absurd h (by decide)

theorem log_parse_levels_loop_frame (b : Nat) (hb : b < 5) (s : CString) :
    ∀ (en : Bool) (m : LogLevel), (∀ d ∈ s, names_bit b d = false) →
      (log_parse_levels_loop s en m).testBit b = m.testBit b := by
  induction s with
  | nil => intro en m _; rfl
  | cons d ds ih =>
    intro en m h
    have hd : names_bit b d = false := h d (List.mem_cons_self _ _)
    have hds : ∀ x ∈ ds, names_bit b x = false := fun x hx => h x (List.mem_cons_of_mem _ hx)
    unfold log_parse_levels_loop
    split_ifs with h1 h2 h3
    · exact ih _ _ hds
    · exact ih _ _ hds
    · rw [ih _ _ hds, testBit_enable b hb, hd, Bool.or_false]
    · rw [ih _ _ hds, testBit_disable b hb, hd]; simp

theorem mode_after_nil (en : Bool) : mode_after en [] = en := rfl

theorem mode_after_cons (en : Bool) (d : Char) (ds : CString) :
    mode_after en (d :: ds) =
      if d = '+' then mode_after true ds else if d = '-' then mode_after false ds
      else mode_after en ds := by
  unfold mode_after
  by_cases h1 : d = '+'
  · subst h1
    have : is_sign '+' = true := by decide
    simp only [List.filter_cons, this, if_true, List.getLast?_cons]
    cases (List.filter is_sign ds).getLast? <;> simp
  · by_cases h2 : d = '-'
    · subst h2
      have : is_sign '-' = true := by decide
      simp only [List.filter_cons, this, if_true, List.getLast?_cons, h1, if_false]
      cases (List.filter is_sign ds).getLast? <;> simp
    · have : is_sign d = false := by simp [is_sign, h1, h2]
      simp [List.filter_cons, this, h1, h2]

theorem enable_mode_eq (pre : CString) : enable_mode pre = mode_after true pre := by
  unfold enable_mode mode_after
  cases (List.filter is_sign pre).getLast? with
  | none => rfl
  | some v => by_cases h : v = '-' <;> simp [bne, h]

theorem log_parse_levels_loop_last (b : Nat) (hb : b < 5) (c : Char) (post : CString)
    (hc : names_bit b c = true) (hpost : ∀ d ∈ post, names_bit b d = false) (pre : CString) :
    ∀ (en : Bool) (m : LogLevel),
      (log_parse_levels_loop (pre ++ c :: post) en m).testBit b = mode_after en pre := by
  induction pre with
  | nil =>
    intro en m
    obtain ⟨hp, hm⟩ := names_bit_not_sign b hb c hc
    rw [List.nil_append, mode_after_nil]
    unfold log_parse_levels_loop
    rw [if_neg hp, if_neg hm]
    cases en with
    | true =>
      rw [if_pos rfl, log_parse_levels_loop_frame b hb post _ _ hpost, testBit_enable b hb, hc]
      simp
    | false =>
      rw [if_neg (by simp), log_parse_levels_loop_frame b hb post _ _ hpost,
        testBit_disable b hb, hc]
      simp
  | cons d ds ih =>
    intro en m
    rw [List.cons_append, mode_after_cons]
    unfold log_parse_levels_loop
    split_ifs with h1 h2 h3
    · exact ih _ _
    · exact ih _ _
    · rw [ih _ _, h3]
    · rw [ih _ _]

/-- C2. The value of `log_parse_levels`, bit by bit: when `c` is the last
character of the string that is the letter of the severity bit `b` or the letter
A (in either case), the bit is set exactly when `c` stands in enable mode (the
nearest sign in front of it is a plus, or there is none); when the string has no
such character the bit is the one of the initial mask. A character that is no
sign and none of the letters has `chr2lvl` zero. The three examples of the spec
hold, on the mask `LOG_ALL` and on the empty mask. -/
theorem log_parse_levels_spec :
    (∀ (m : LogLevel) (pre post : CString) (c : Char) (b : Nat), b < 5 →
        names_bit b c = true → (∀ d ∈ post, names_bit b d = false) →
        (log_parse_levels m (some (pre ++ c :: post))).testBit b = enable_mode pre) ∧
      (∀ (m : LogLevel) (s : CString) (b : Nat), b < 5 → (∀ d ∈ s, names_bit b d = false) →
        (log_parse_levels m (some s)).testBit b = m.testBit b) ∧
      (∀ c : Char, is_sign c = false → (∀ b, b < 5 → names_bit b c = false) → chr2lvl c = 0) ∧
      log_parse_levels LOG_ALL (some ['-', 'D', '-', 'I']) = LOG_WARN ||| LOG_ERROR ||| LOG_FATAL ∧
      log_parse_levels LOG_ALL (some ['A']) = LOG_ALL ∧
      log_parse_levels LOG_NONE (some ['A']) = LOG_ALL ∧
      log_parse_levels LOG_ALL (some ['+', 'A', '-', 'F'])
        = LOG_DEBUG ||| LOG_INFO ||| LOG_WARN ||| LOG_ERROR ∧
      log_parse_levels LOG_NONE (some ['+', 'A', '-', 'F'])
        = LOG_DEBUG ||| LOG_INFO ||| LOG_WARN ||| LOG_ERROR := by
  refine ⟨?_, ?_, ?_, by decide, by decide, by decide, by decide, by decide⟩
  · intro m pre post c b hb hc hpost
    rw [enable_mode_eq]
    exact log_parse_levels_loop_last b hb c post hc hpost pre true m
  · intro m s b hb hs
    exact log_parse_levels_loop_frame b hb s true m hs
  · intro c _ hc
    rcases chr2lvl_cases c with ⟨h, -⟩ | ⟨h, -⟩ | ⟨h, -⟩ | ⟨h, -⟩ | ⟨h, -⟩ | ⟨h, -⟩ | ⟨-, h⟩
    · exact absurd (hc 0 (by decide)) (by rcases h with rfl | rfl <;> decide)
    · exact absurd (hc 1 (by decide)) (by rcases h with rfl | rfl <;> decide)
    · exact absurd (hc 2 (by decide)) (by rcases h with rfl | rfl <;> decide)
    · exact absurd (hc 3 (by decide)) (by rcases h with rfl | rfl <;> decide)
    · exact absurd (hc 4 (by decide)) (by rcases h with rfl | rfl <;> decide)
    · exact absurd (hc 0 (by decide)) (by rcases h with rfl | rfl <;> decide)
    · exact h

/-- Witness of C2: in `-D-I+d` the last letter for Debug stands behind a plus,
the last letter for Info behind a minus, and no letter names Warning. -/
theorem log_parse_levels_spec_witness :
    (log_parse_levels LOG_INFO (some (['-', 'D', '-', 'I', '+'] ++ 'd' :: []))).testBit 0
        = enable_mode ['-', 'D', '-', 'I', '+'] ∧
      (log_parse_levels LOG_INFO (some (['-', 'D', '-'] ++ 'I' :: ['+', 'd']))).testBit 1
        = enable_mode ['-', 'D', '-'] ∧
      (log_parse_levels LOG_WARN (some ['-', 'D', '-', 'I', '+', 'd'])).testBit 2
        = LOG_WARN.testBit 2 ∧
      chr2lvl 'x' = 0 :=
  ⟨log_parse_levels_spec.1 LOG_INFO ['-', 'D', '-', 'I', '+'] [] 'd' 0 (by decide) (by decide)
      (by decide),
    log_parse_levels_spec.1 LOG_INFO ['-', 'D', '-'] ['+', 'd'] 'I' 1 (by decide) (by decide)
      (by decide),
    log_parse_levels_spec.2.1 LOG_WARN ['-', 'D', '-', 'I', '+', 'd'] 2 (by decide) (by decide),
    log_parse_levels_spec.2.2.1 'x' (by decide) (by decide)⟩

/-- Witness of C1: an Error record in synchronous mode under the mask `LOG_ALL`. -/
theorem log_internal_sync_dispatch_witness :
    (sample_world LOG_ALL false).logging.queue.thread = false ∧
      ((∃ evs, (log_internal sample_env LOG_ERROR ['f'] ['c'] 7 ['m'] 5
            (sample_world LOG_ALL false)).world.trace
            = (sample_world LOG_ALL false).trace ++ evs ∧
          writes evs =
            ((sample_world LOG_ALL false).logging.outputs.filter
              (fun S => LOG_ERROR &&& (sample_world LOG_ALL false).logging.enabled_log_levels
                &&& S.levels ≠ 0)).map
              (write_of (log_internal_entry sample_env
                (LOG_ERROR &&& (sample_world LOG_ALL false).logging.enabled_log_levels)
                ['f'] ['c'] 7 ['m'] 5))) ∧
        (LOG_ERROR &&& (sample_world LOG_ALL false).logging.enabled_log_levels = LOG_NONE →
          log_internal sample_env LOG_ERROR ['f'] ['c'] 7 ['m'] 5 (sample_world LOG_ALL false)
            = Outcome.returned (sample_world LOG_ALL false))) :=
  ⟨rfl, log_internal_sync_dispatch sample_env LOG_ERROR ['f'] ['c'] 7 ['m'] 5
    (sample_world LOG_ALL false) rfl⟩

/-! ## C3 and C4: the forced-fatal entry point -/

/-- C3. For every environment, enabled mask, level argument, sink registry and
queue, `_taisei_log_fatal` ends in `log_abort`: the outcome is never a return,
it is the world left by a call of `log_abort`, and the last effect is `abort`. -/
theorem taisei_log_fatal_terminates (env : Env) (L : LogLevel) (funcname filename : CString)
    (line : Nat) (text : CString) (ticks : Nat) (w : World) :
    (∃ msg w1, _taisei_log_fatal env L funcname filename line text ticks w
        = Outcome.aborted (log_abort env msg w1)) ∧
      (_taisei_log_fatal env L funcname filename line text ticks w).is_returned = false ∧
      (_taisei_log_fatal env L funcname filename line text ticks w).world.trace.getLast?
        = some Event.abort := by
  have key : ∃ msg w1, _taisei_log_fatal env L funcname filename line text ticks w
      = Outcome.aborted (log_abort env msg w1) := by
    unfold _taisei_log_fatal
    by_cases h0 : L &&& w.logging.enabled_log_levels = LOG_NONE
    · rw [log_internal_filtered _ _ _ _ _ _ _ _ h0]
      exact ⟨none, w, rfl⟩
    · by_cases hfatal : L &&& w.logging.enabled_log_levels &&& LOG_FATAL = 0
      · rw [log_internal_plain _ _ _ _ _ _ _ _ h0 hfatal]
        exact ⟨none, _, rfl⟩
      · by_cases hna : L &&& LOG_NOABORT_BIT = 0
        · rw [log_internal_abort _ _ _ _ _ _ _ _ h0 hfatal hna]
          exact ⟨_, _, rfl⟩
        · rw [log_internal_noabort _ _ _ _ _ _ _ _ h0 hfatal hna]
          exact ⟨none, _, rfl⟩
  obtain ⟨msg, w1, h⟩ := key
  refine ⟨⟨msg, w1, h⟩, ?_, ?_⟩
  · rw [h]; rfl
  · rw [h, log_abort_eq]
    simp [Outcome.world]

/-- C4 fails as stated: with Fatal removed from the enabled mask, the two sample
sinks both accept Fatal, and a forced-fatal call with level Fatal ends in abort
without a single write: the message reaches no sink. -/
theorem taisei_log_fatal_logs_counterexample :
    LOG_FATAL &&& (sample_world (LOG_ALL - LOG_FATAL) false).logging.enabled_log_levels = 0 ∧
      (∀ S ∈ (sample_world (LOG_ALL - LOG_FATAL) false).logging.outputs,
        S.levels &&& LOG_FATAL ≠ 0) ∧
      (_taisei_log_fatal sample_env LOG_FATAL ['f'] ['c'] 7 ['m'] 5
        (sample_world (LOG_ALL - LOG_FATAL) false)).world.trace
        = [Event.rw_sync 1, Event.rw_close 1, Event.rw_sync 2, Event.rw_close 2, Event.abort] ∧
      writes (_taisei_log_fatal sample_env LOG_FATAL ['f'] ['c'] 7 ['m'] 5
        (sample_world (LOG_ALL - LOG_FATAL) false)).world.trace = [] := by
  refine ⟨by decide, by decide, by decide, by decide⟩

/-- C4, amended. When the Fatal bit is absent from the enabled mask, a call of
`_taisei_log_fatal` with level Fatal drops the record at the level filter
(nothing is staged, formatted, queued or written for it) and then ends the
process through `log_abort` without a message: the outcome is that of
`log_abort(NULL)` on the unchanged world, whose only writes are those of the
records that were already queued. -/
theorem taisei_log_fatal_filtered (env : Env) (funcname filename : CString)
    (line : Nat) (text : CString) (ticks : Nat) (w : World)
    (hoff : LOG_FATAL &&& w.logging.enabled_log_levels = 0) :
    _taisei_log_fatal env LOG_FATAL funcname filename line text ticks w
        = Outcome.aborted (log_abort env none w) ∧
      (log_abort env none w).trace =
        w.trace ++ msgbox_events env none w.logging.err_appendix
          ++ shutdown_events true env w
          ++ w.logging.outputs.flatMap delete_events ++ [Event.abort] := by
  constructor
  · unfold _taisei_log_fatal
    rw [log_internal_filtered _ _ _ _ _ _ _ _ hoff]
  · rw [log_abort_eq]

/-- Witness of the amended C4 on the sample engine without Fatal. -/
theorem taisei_log_fatal_filtered_witness :
    LOG_FATAL &&& (sample_world (LOG_ALL - LOG_FATAL) false).logging.enabled_log_levels = 0 ∧
      _taisei_log_fatal sample_env LOG_FATAL ['f'] ['c'] 7 ['m'] 5
          (sample_world (LOG_ALL - LOG_FATAL) false)
        = Outcome.aborted (log_abort sample_env none (sample_world (LOG_ALL - LOG_FATAL) false)) :=
  ⟨by decide, (taisei_log_fatal_filtered sample_env ['f'] ['c'] 7 ['m'] 5
    (sample_world (LOG_ALL - LOG_FATAL) false) (by decide)).1⟩

/-! ## C5: the queue is drained on the fatal-abort path -/

theorem log_dispatch_async_loop_eq (entry : LogEntry) (ls : List Logger) (w : World) :
    log_dispatch_async_loop entry ls w
      = w.with_queue (w.logging.queue.queue ++ enqueued ls entry) := by
  induction ls with
  | nil => simp [log_dispatch_async_loop, enqueued, with_queue_self]
  | cons l ls ih =>
    by_cases h : l.levels &&& entry.level = 0
    · rw [log_dispatch_async_loop, if_neg (by simp [h]), ih]
      simp [enqueued, h]
    · rw [log_dispatch_async_loop, if_pos h]
      simp [enqueued, h, alist_append]

theorem log_dispatch_async_eq (entry : LogEntry) (w : World) :
    log_dispatch_async entry w
      = w.with_queue (w.logging.queue.queue ++ enqueued w.logging.outputs entry) :=
  log_dispatch_async_loop_eq entry w.logging.outputs w

theorem dispatch_events_of_none (ls : List Logger) (e : LogEntry)
    (h : ls.any (fun l => l.levels &&& e.level ≠ 0) = false) : dispatch_events ls e = [] := by
  simp only [List.any_eq_false, decide_eq_true_eq] at h
  simp only [dispatch_events, List.map_eq_nil_iff, List.filter_eq_nil_iff, decide_eq_true_eq]
  exact h

theorem queue_events_append (ls : List Logger) (q r : List QueuedLogEntry) :
    queue_events ls (q ++ r) = queue_events ls q ++ queue_events ls r := by
  simp [queue_events]

theorem queue_events_enqueued (ls : List Logger) (e : LogEntry) :
    queue_events ls (enqueued ls e) = dispatch_events ls e := by
  unfold enqueued
  split
  · simp [queue_events]
  · rename_i h
    rw [dispatch_events_of_none ls e (by simpa using h)]
    rfl

theorem log_internal_deliver_async (entry : LogEntry) (w : World)
    (hthread : w.logging.queue.thread = true) :
    log_internal_deliver entry w =
      (w.with_pre_format entry.message).with_queue
        (w.logging.queue.queue ++ enqueued w.logging.outputs entry) := by
  simp [log_internal_deliver, hthread, log_dispatch_async_eq]

/-- C5. With a worker thread, `log_queue_shutdown(true)` leaves the shutdown
flag at 1 whatever the fast-shutdown setting of the environment; a worker woken
with flag 1 dispatches every entry of the queue, oldest first, and leaves the
queue empty; so the effects of `log_abort` are: the message box, then the writes
of all queued records to all matching sinks, then the closing of the sinks, and
`abort` last. For a Fatal record without the no-abort modifier `log_internal`
ends that way, the record itself being dispatched after those queued before. -/
theorem fatal_abort_flushes_queue (env : Env) (w : World)
    (hthread : w.logging.queue.thread = true) :
    (log_queue_shutdown true env w).logging.queue.shutdown = 1 ∧
      (∀ w1 : World, w1.logging.queue.shutdown = 1 →
        ∃ f, log_queue_thread_wake w1 =
          ((w1.with_queue []).with_format f).emit
            (queue_events w1.logging.outputs w1.logging.queue.queue)) ∧
      (∀ msg, (log_abort env msg w).trace =
        w.trace ++ msgbox_events env msg w.logging.err_appendix
          ++ queue_events w.logging.outputs w.logging.queue.queue
          ++ w.logging.outputs.flatMap delete_events ++ [Event.abort]) ∧
      (∀ (L : LogLevel) (funcname filename : CString) (line : Nat) (text : CString)
          (ticks : Nat),
        L &&& w.logging.enabled_log_levels &&& LOG_FATAL ≠ 0 → L &&& LOG_NOABORT_BIT = 0 →
        ∃ w1, log_internal env L funcname filename line text ticks w = Outcome.aborted w1 ∧
          w1.trace =
            w.trace
              ++ msgbox_events env
                  (some (log_internal_entry env (L &&& w.logging.enabled_log_levels) funcname
                    filename line text ticks).message) w.logging.err_appendix
              ++ queue_events w.logging.outputs w.logging.queue.queue
              ++ dispatch_events w.logging.outputs
                  (log_internal_entry env (L &&& w.logging.enabled_log_levels) funcname
                    filename line text ticks)
              ++ w.logging.outputs.flatMap delete_events ++ [Event.abort]) := by
  have hpol : (env.TAISEI_LOG_ASYNC_FAST_SHUTDOWN && !true) = false := by simp
  refine ⟨?_, ?_, ?_, ?_⟩
  · obtain ⟨f, hf⟩ := log_queue_shutdown_graceful true env w hthread hpol
    rw [hf]
    rfl
  · intro w1 h1
    exact log_queue_drain_slow w1.logging.queue.queue w1 rfl (by omega)
  · intro msg
    rw [log_abort_eq]
    simp [shutdown_events, hthread]
  · intro L funcname filename line text ticks hfatal hna
    have h0 : L &&& w.logging.enabled_log_levels ≠ LOG_NONE := by
      intro h
      apply hfatal
      rw [h]
      simp [LOG_NONE]
    refine ⟨_, log_internal_abort _ _ _ _ _ _ _ _ h0 hfatal hna, ?_⟩
    rw [log_abort_eq, log_internal_deliver_async _ _ hthread]
    have ht : ∀ (m : CString) (q : List QueuedLogEntry),
        ((w.with_pre_format m).with_queue q).logging.queue.thread = true := fun _ _ => hthread
    simp [shutdown_events, ht, queue_events_append, queue_events_enqueued]

/-- Witness of C5: the sample engine in asynchronous mode with one record in the
queue and the fast-shutdown setting switched on. -/
theorem fatal_abort_flushes_queue_witness :
    ((sample_world LOG_ALL true).with_queue [{ e := sample_entry }]).logging.queue.thread = true ∧
      (log_queue_shutdown true
        { sample_env with TAISEI_LOG_ASYNC_FAST_SHUTDOWN := true }
        ((sample_world LOG_ALL true).with_queue [{ e := sample_entry }])).logging.queue.shutdown
        = 1 :=
  ⟨rfl, (fatal_abort_flushes_queue { sample_env with TAISEI_LOG_ASYNC_FAST_SHUTDOWN := true }
    ((sample_world LOG_ALL true).with_queue [{ e := sample_entry }]) rfl).1⟩

/-! ## C6: a Fatal record with the no-abort modifier -/

/-- C6, the code at the failing input. In asynchronous mode a record of level
Fatal with the no-abort modifier comes back to the caller after the two sample
sinks have been flushed, but nothing has been written to them: the record is
still in the queue when the sinks are flushed. In synchronous mode the same call
writes the record to both sinks before it flushes them. -/
theorem log_internal_noabort_async_unflushed :
    (log_internal sample_env (LOG_FATAL ||| LOG_NOABORT_BIT) ['f'] ['c'] 7 ['m'] 5
        (sample_world LOG_ALL true)).is_returned = true ∧
      (log_internal sample_env (LOG_FATAL ||| LOG_NOABORT_BIT) ['f'] ['c'] 7 ['m'] 5
        (sample_world LOG_ALL true)).world.trace = [Event.rw_sync 1, Event.rw_sync 2] ∧
      (log_internal sample_env (LOG_FATAL ||| LOG_NOABORT_BIT) ['f'] ['c'] 7 ['m'] 5
        (sample_world LOG_ALL true)).world.logging.queue.queue
        = [{ e := { message := ['m'], file := ['c'], func := ['f'], time := 5, line := 7,
                    level := LOG_FATAL } }] ∧
      (log_internal sample_env (LOG_FATAL ||| LOG_NOABORT_BIT) ['f'] ['c'] 7 ['m'] 5
        (sample_world LOG_ALL false)).world.trace
        = [Event.rw_write 1 ['m', '\n'], Event.rw_write 2 ['m', '\n'],
           Event.rw_sync 1, Event.rw_sync 2] := by
  refine ⟨by decide, by decide, by decide, by decide⟩

/-! ## C7: registering a sink -/

/-- C7. `log_add_output` with a null handle changes nothing; with a handle and a
mask that has no bit in common with the enabled mask it leaves the global state
(the registry with it) unchanged and its only effect is to close the handle; in
every other case it has no effect on the outside and the registry grows by
exactly one sink, at its end, holding that mask, that handle and the formatter
made for the handle, the rest of the state being unchanged. -/
theorem log_add_output_spec (levels : LogLevel) (formatter : Nat → FormatterObj) (w : World) :
    log_add_output levels none formatter w = w ∧
      (∀ out, levels &&& w.logging.enabled_log_levels = 0 →
        (log_add_output levels (some out) formatter w).logging = w.logging ∧
        (log_add_output levels (some out) formatter w).trace
          = w.trace ++ [Event.rw_close out]) ∧
      (∀ out, levels &&& w.logging.enabled_log_levels ≠ 0 →
        (log_add_output levels (some out) formatter w).trace = w.trace ∧
        (log_add_output levels (some out) formatter w).logging =
          { w.logging with
            outputs := w.logging.outputs
              ++ [{ formatter := formatter out, out := out, levels := levels }] }) := by
  refine ⟨rfl, ?_, ?_⟩
  · intro out h
    simp [log_add_output, h]
  · intro out h
    simp [log_add_output, h]

/-- Witness of C7: a Debug-only sink under a mask without Debug is refused and
its handle closed; an Error sink is added. -/
theorem log_add_output_spec_witness :
    (LOG_DEBUG &&& (sample_world (LOG_ALL - LOG_DEBUG) false).logging.enabled_log_levels = 0 ∧
        (log_add_output LOG_DEBUG (some 9) (fun _ => sample_formatter)
          (sample_world (LOG_ALL - LOG_DEBUG) false)).trace
          = (sample_world (LOG_ALL - LOG_DEBUG) false).trace ++ [Event.rw_close 9]) ∧
      (LOG_ERROR &&& (sample_world (LOG_ALL - LOG_DEBUG) false).logging.enabled_log_levels ≠ 0 ∧
        (log_add_output LOG_ERROR (some 9) (fun _ => sample_formatter)
          (sample_world (LOG_ALL - LOG_DEBUG) false)).trace
          = (sample_world (LOG_ALL - LOG_DEBUG) false).trace) :=
  ⟨⟨by decide, ((log_add_output_spec LOG_DEBUG (fun _ => sample_formatter)
      (sample_world (LOG_ALL - LOG_DEBUG) false)).2.1 9 (by decide)).2⟩,
    ⟨by decide, ((log_add_output_spec LOG_ERROR (fun _ => sample_formatter)
      (sample_world (LOG_ALL - LOG_DEBUG) false)).2.2 9 (by decide)).1⟩⟩

/-! ## C8: shutdown -/

/-- C8. For every state and environment `log_shutdown` leaves the global state
equal to the all-zero state; its effects are the writes of the worker while it
is joined (the queued records under the graceful policy, none otherwise),
followed, for each registered sink in turn, by the cleanup of its formatter when
it has one, one flush and one close of its handle. A second `log_shutdown` right
after the first changes nothing: same state, and no further effect. -/
theorem log_shutdown_spec (env : Env) (w : World) :
    (log_shutdown env w).logging = logging_zero ∧
      (log_shutdown env w).trace =
        w.trace ++ shutdown_events false env w ++ w.logging.outputs.flatMap delete_events ∧
      (∀ l : Logger, delete_events l =
        (if l.formatter.free then [Event.formatter_free l.out] else [])
          ++ [Event.rw_sync l.out, Event.rw_close l.out]) ∧
      (∀ env1 : Env, log_shutdown env1 (log_shutdown env w) = log_shutdown env w) := by
  refine ⟨?_, ?_, fun _ => rfl, ?_⟩
  · rw [log_shutdown_eq]
  · rw [log_shutdown_eq]
  · intro env1
    rw [log_shutdown_eq env1, log_shutdown_eq env w]
    simp [shutdown_events, logging_zero]

/-! ## C9: first in, first out -/

@[simp] theorem with_format_shutdown (w : World) (f : CString) :
    (w.with_format f).logging.queue.shutdown = w.logging.queue.shutdown := rfl

theorem log_queue_thread_iter_nil (w : World) (hq : w.logging.queue.queue = []) :
    (log_queue_thread_iter w).1 = w := by
  simp [log_queue_thread_iter, alist_pop, hq]

theorem log_queue_thread_iter_cons (w : World) (qle : QueuedLogEntry)
    (rest : List QueuedLogEntry) (hq : w.logging.queue.queue = qle :: rest)
    (hflag : w.logging.queue.shutdown < 2) :
    ∃ f, (log_queue_thread_iter w).1 =
      ((w.with_queue rest).with_format f).emit (dispatch_events w.logging.outputs qle.e) := by
  obtain ⟨f, hf⟩ := log_dispatch_eq qle.e (w.with_queue rest)
  exact ⟨f, by simp [log_queue_thread_iter, alist_pop, hq, hflag, hf]⟩

theorem log_queue_thread_iter_stopped (w : World) (hflag : ¬ w.logging.queue.shutdown < 2) :
    (log_queue_thread_iter w).1 = w.with_queue w.logging.queue.queue.tail := by
  cases hq : w.logging.queue.queue with
  | nil =>
    rw [log_queue_thread_iter_nil w hq]
    have : w.with_queue w.logging.queue.queue = w := rfl
    rw [hq] at this
    exact this.symm
  | cons qle rest => simp [log_queue_thread_iter, alist_pop, hq, hflag]

theorem queue_run_stopped (acts : List QueueAction) :
    ∀ w : World, ¬ w.logging.queue.shutdown < 2 → (queue_run acts w).trace = w.trace := by
  induction acts with
  | nil => intro w _; rfl
  | cons a acts ih =>
    intro w hflag
    cases a with
    | produce entry =>
      rw [queue_run, queue_step, log_dispatch_async_eq, ih _ (by simpa using hflag)]
      rfl
    | consume =>
      rw [queue_run, queue_step, log_queue_thread_iter_stopped w hflag,
        ih _ (by simpa using hflag)]
      rfl

theorem queue_run_fifo (acts : List QueueAction) :
    ∀ w : World, w.logging.queue.shutdown < 2 →
      ∃ k, (queue_run acts w).trace =
          w.trace ++ queue_events w.logging.outputs
            ((w.logging.queue.queue ++ produced w.logging.outputs acts).take k) ∧
        (queue_run acts w).logging.queue.queue =
          (w.logging.queue.queue ++ produced w.logging.outputs acts).drop k := by
  induction acts with
  | nil => intro w _; exact ⟨0, by simp [queue_run, queue_events, produced]⟩
  | cons a acts ih =>
    intro w hflag
    cases a with
    | produce entry =>
      obtain ⟨k, h1, h2⟩ := ih (log_dispatch_async entry w)
        (by rw [log_dispatch_async_eq]; exact hflag)
      refine ⟨k, ?_, ?_⟩
      · rw [queue_run, queue_step, h1, log_dispatch_async_eq]
        simp [produced, List.append_assoc]
      · rw [queue_run, queue_step, h2, log_dispatch_async_eq]
        simp [produced, List.append_assoc]
    | consume =>
      cases hq : w.logging.queue.queue with
      | nil =>
        obtain ⟨k, h1, h2⟩ := ih w hflag
        refine ⟨k, ?_, ?_⟩
        · rw [queue_run, queue_step, log_queue_thread_iter_nil w hq, h1, hq]
          simp [produced]
        · rw [queue_run, queue_step, log_queue_thread_iter_nil w hq, h2, hq]
          simp [produced]
      | cons qle rest =>
        obtain ⟨f, hf⟩ := log_queue_thread_iter_cons w qle rest hq hflag
        obtain ⟨k, h1, h2⟩ := ih
          (((w.with_queue rest).with_format f).emit (dispatch_events w.logging.outputs qle.e))
          hflag
        refine ⟨k + 1, ?_, ?_⟩
        · rw [queue_run, queue_step, hf, h1]
          simp [produced, queue_events, List.flatMap_cons]
        · rw [queue_run, queue_step, hf, h2]
          simp [produced]

theorem queue_step_produce (entry : LogEntry) (w : World) :
    queue_step (QueueAction.produce entry) w
      = w.with_queue (w.logging.queue.queue ++ enqueued w.logging.outputs entry) :=
  log_dispatch_async_eq entry w

theorem queue_run_fifo_count (acts : List QueueAction) :
    ∀ w : World, w.logging.queue.shutdown < 2 →
      (queue_run acts w).trace =
          w.trace ++ queue_events w.logging.outputs
            ((w.logging.queue.queue ++ produced w.logging.outputs acts).take
              (dispatched_count w.logging.outputs acts w.logging.queue.queue.length)) ∧
        (queue_run acts w).logging.queue.queue =
          (w.logging.queue.queue ++ produced w.logging.outputs acts).drop
            (dispatched_count w.logging.outputs acts w.logging.queue.queue.length) := by
  induction acts with
  | nil => intro w _; simp [queue_run, queue_events, produced, dispatched_count]
  | cons a acts ih =>
    intro w hflag
    cases a with
    | produce entry =>
      obtain ⟨h1, h2⟩ := ih (log_dispatch_async entry w)
        (by rw [log_dispatch_async_eq]; exact hflag)
      constructor
      · rw [queue_run, queue_step, h1, log_dispatch_async_eq]
        simp [produced, dispatched_count, List.append_assoc]
      · rw [queue_run, queue_step, h2, log_dispatch_async_eq]
        simp [produced, dispatched_count, List.append_assoc]
    | consume =>
      cases hq : w.logging.queue.queue with
      | nil =>
        obtain ⟨h1, h2⟩ := ih w hflag
        constructor
        · rw [queue_run, queue_step, log_queue_thread_iter_nil w hq, h1, hq]
          simp [produced, dispatched_count]
        · rw [queue_run, queue_step, log_queue_thread_iter_nil w hq, h2, hq]
          simp [produced, dispatched_count]
      | cons qle rest =>
        obtain ⟨f, hf⟩ := log_queue_thread_iter_cons w qle rest hq hflag
        obtain ⟨h1, h2⟩ := ih
          (((w.with_queue rest).with_format f).emit (dispatch_events w.logging.outputs qle.e))
          hflag
        constructor
        · rw [queue_run, queue_step, hf, h1]
          simp [produced, dispatched_count, queue_events, List.flatMap_cons]
        · rw [queue_run, queue_step, hf, h2]
          simp [produced, dispatched_count]

/-- C9. In asynchronous mode a step of the producer (`log_dispatch_async`)
appends the record at the tail of the queue, once, when some sink accepts it; a
turn of the worker on a queue that is not empty (shutdown flag below 2) removes
the record at the head and dispatches it, writing it to every matching sink, and
a turn on an empty queue does nothing. So along every schedule of such steps the
writes done are those of the first `k` records of the list made of the records
queued at the start followed by the records the producer got queued, in the
order in which it issued them, where `k` is the number of turns the worker took
on a queue that was not empty, and the queue holds the rest of that list: the
order of dispatch is the order of enqueue. -/
theorem async_dispatch_fifo (acts : List QueueAction) (w : World) :
    (∀ (entry : LogEntry) (w1 : World),
        queue_step (QueueAction.produce entry) w1
          = w1.with_queue (w1.logging.queue.queue ++ enqueued w1.logging.outputs entry)) ∧
      (∀ (w1 : World) (qle : QueuedLogEntry) (rest : List QueuedLogEntry),
        w1.logging.queue.queue = qle :: rest → w1.logging.queue.shutdown < 2 →
        (queue_step QueueAction.consume w1).logging.queue.queue = rest ∧
        (queue_step QueueAction.consume w1).trace
          = w1.trace ++ dispatch_events w1.logging.outputs qle.e) ∧
      (∀ w1 : World, w1.logging.queue.queue = [] → queue_step QueueAction.consume w1 = w1) ∧
      (w.logging.queue.shutdown < 2 →
        (queue_run acts w).trace =
          w.trace ++ queue_events w.logging.outputs
            ((w.logging.queue.queue ++ produced w.logging.outputs acts).take
              (dispatched_count w.logging.outputs acts w.logging.queue.queue.length)) ∧
        (queue_run acts w).logging.queue.queue =
          (w.logging.queue.queue ++ produced w.logging.outputs acts).drop
            (dispatched_count w.logging.outputs acts w.logging.queue.queue.length)) := by
  refine ⟨queue_step_produce, ?_, ?_, queue_run_fifo_count acts w⟩
  · intro w1 qle rest hq hflag
    obtain ⟨f, hf⟩ := log_queue_thread_iter_cons w1 qle rest hq hflag
    simp only [queue_step]
    rw [hf]
    exact ⟨rfl, rfl⟩
  · intro w1 hq
    exact log_queue_thread_iter_nil w1 hq

/-- Witness of C9: two records are produced, the worker takes one turn, a third
record is produced and the worker takes a turn again. -/
theorem async_dispatch_fifo_witness :
    (sample_world LOG_ALL true).logging.queue.shutdown < 2 ∧
      (queue_run
        [QueueAction.produce sample_entry,
         QueueAction.produce { sample_entry with message := ['n', 'e', 'w'], level := LOG_DEBUG },
         QueueAction.consume,
         QueueAction.produce { sample_entry with message := ['e', 'n', 'd'] },
         QueueAction.consume]
        (sample_world LOG_ALL true)).trace
      = [Event.rw_write 1 ['o', 'l', 'd', '\n'], Event.rw_write 2 ['o', 'l', 'd', '\n'],
         Event.rw_write 2 ['n', 'e', 'w', '\n']] :=
  ⟨by decide, ((async_dispatch_fifo
    [QueueAction.produce sample_entry,
     QueueAction.produce { sample_entry with message := ['n', 'e', 'w'], level := LOG_DEBUG },
     QueueAction.consume,
     QueueAction.produce { sample_entry with message := ['e', 'n', 'd'] },
     QueueAction.consume]
    (sample_world LOG_ALL true)).2.2.2 (by decide)).1⟩

/-! ## C10: the plain console formatter -/

theorem level_prefix_of_msb (lvl i : Nat) (hi : i < 5) (hlo : 2 ^ i ≤ lvl)
    (hhi : lvl < 2 ^ (i + 1)) : level_prefix lvl = some [severity_letter i] := by
  interval_cases i <;> simp only [Nat.reducePow, Nat.reduceAdd] at hlo hhi <;>
    interval_cases lvl <;> rfl

theorem printf_d_small (v : Nat) (hv : v < 2 ^ 31) : printf_d v = Nat.toDigits 10 v := by
  have h1 : v % 2 ^ 32 = v := Nat.mod_eq_of_lt (by omega)
  unfold printf_d
  rw [h1, if_pos hv]

/-- C10 fails as stated: for a record of level Info at time 5 the formatter pads
the timestamp to nine columns, so the line has nine spaces between the timestamp
and the letter, not two, and 18 bytes instead of 11; and for a record with an
empty level the assertion of `INDEX_MAP` fails, so nothing is rendered. -/
theorem log_fmtconsole_format_plain_counterexample :
    log_fmtconsole_format_plain []
        { message := ['m'], file := ['c'], func := ['f'], time := 5, line := 7,
          level := LOG_INFO }
      = some (['5', ' ', ' ', ' ', ' ', ' ', ' ', ' ', ' ', ' ', 'I', ':', ' ', 'f', ':', ' ',
          'm', '\n'], 18) ∧
    log_fmtconsole_format_plain []
        { message := ['m'], file := ['c'], func := ['f'], time := 5, line := 7,
          level := LOG_INFO }
      ≠ some (plain_line_two_spaces
          { message := ['m'], file := ['c'], func := ['f'], time := 5, line := 7,
            level := LOG_INFO } 'I',
        (plain_line_two_spaces
          { message := ['m'], file := ['c'], func := ['f'], time := 5, line := 7,
            level := LOG_INFO } 'I').length) ∧
    log_fmtconsole_format_plain []
        { message := ['m'], file := ['c'], func := ['f'], time := 5, line := 7,
          level := LOG_NONE }
      = none := by
  refine ⟨by decide, by decide, by decide⟩

/-- C10, amended. For every record whose level has its most significant bit at
one of the five severities (index `i` below 5) and whose timestamp is below
2^31, the plain console formatter appends to the buffer exactly the line made of
the decimal timestamp, padded with spaces on the right to nine columns, one
space, the letter of severity `i`, colon and space, the function name, colon and
space, the message and one newline; the returned count is the length of that
line. -/
theorem log_fmtconsole_format_plain_spec (buf : CString) (entry : LogEntry) (i : Nat)
    (hi : i < 5) (hlo : 2 ^ i ≤ entry.level) (hhi : entry.level < 2 ^ (i + 1))
    (ht : entry.time < 2 ^ 31) :
    log_fmtconsole_format_plain buf entry =
      some (buf ++
          (Nat.toDigits 10 entry.time
            ++ List.replicate (9 - (Nat.toDigits 10 entry.time).length) ' '
            ++ [' ', severity_letter i, ':', ' '] ++ entry.func ++ [':', ' ']
            ++ entry.message ++ ['\n']),
        (Nat.toDigits 10 entry.time
            ++ List.replicate (9 - (Nat.toDigits 10 entry.time).length) ' '
            ++ [' ', severity_letter i, ':', ' '] ++ entry.func ++ [':', ' ']
            ++ entry.message ++ ['\n']).length) := by
  unfold log_fmtconsole_format_plain
  rw [level_prefix_of_msb entry.level i hi hlo hhi, printf_d_small entry.time ht]
  simp [strbuf_printf, printf_left]

/-- Witness of the amended C10: a record of levels Warning and Info at time
1234567890. -/
theorem log_fmtconsole_format_plain_spec_witness :
    (2 < 5 ∧ 2 ^ 2 ≤ LOG_WARN ||| LOG_INFO ∧ LOG_WARN ||| LOG_INFO < 2 ^ (2 + 1)
        ∧ 1234567890 < 2 ^ 31) ∧
      log_fmtconsole_format_plain []
          { message := ['m'], file := ['c'], func := ['f'], time := 1234567890, line := 7,
            level := LOG_WARN ||| LOG_INFO }
        = some (['1', '2', '3', '4', '5', '6', '7', '8', '9', '0', ' ', 'W', ':', ' ', 'f', ':',
            ' ', 'm', '\n'], 19) :=
  ⟨by decide, log_fmtconsole_format_plain_spec []
    { message := ['m'], file := ['c'], func := ['f'], time := 1234567890, line := 7,
      level := LOG_WARN ||| LOG_INFO } 2 (by decide) (by decide) (by decide) (by decide)⟩

/-! ## C11: the file formatter -/

theorem level_name_of_msb (lvl i : Nat) (hi : i < 5) (hlo : 2 ^ i ≤ lvl)
    (hhi : lvl < 2 ^ (i + 1)) : level_name lvl = some (severity_name i) := by
  interval_cases i <;> simp only [Nat.reducePow, Nat.reduceAdd] at hlo hhi <;>
    interval_cases lvl <;> rfl

theorem digitChar_ne_newline (k : Nat) (hk : k < 10) : Nat.digitChar k ≠ '\n' := by
  interval_cases k <;> decide

theorem toDigitsCore_no_newline (fuel : Nat) :
    ∀ (n : Nat) (ds : List Char), '\n' ∉ ds → '\n' ∉ Nat.toDigitsCore 10 fuel n ds := by
  induction fuel with
  | zero => intro n ds h; simpa [Nat.toDigitsCore] using h
  | succ fuel ih =>
    intro n ds h
    have hd : '\n' ∉ Nat.digitChar (n % 10) :: ds := by
      intro hmem
      rcases List.mem_cons.mp hmem with h1 | h1
      · exact digitChar_ne_newline _ (Nat.mod_lt _ (by decide)) h1.symm
      · exact h h1
    unfold Nat.toDigitsCore
    simp only []
    split
    · exact hd
    · exact ih _ _ hd

theorem toDigits_no_newline (n : Nat) : '\n' ∉ Nat.toDigits 10 n :=
  toDigitsCore_no_newline _ _ _ (by simp)

theorem printf_d_no_newline (v : Nat) : '\n' ∉ printf_d v := by
  unfold printf_d
  split
  · exact toDigits_no_newline _
  · intro h
    rcases List.mem_cons.mp h with h1 | h1
    · exact absurd h1 (by decide)
    · exact toDigits_no_newline _ h1

theorem printf_left_no_newline (width : Nat) (t : CString) (h : '\n' ∉ t) :
    '\n' ∉ printf_left width t := by
  unfold printf_left
  intro hmem
  rcases List.mem_append.mp hmem with h1 | h1
  · exact h h1
  · exact absurd (List.eq_of_mem_replicate h1) (by decide)

theorem level_ansi_style_code_of_msb (lvl i : Nat) (hi : i < 5) (hlo : 2 ^ i ≤ lvl)
    (hhi : lvl < 2 ^ (i + 1)) :
    level_ansi_style_code lvl = level_ansi_style_map[i]? ∧
      ∃ style, level_ansi_style_code lvl = some style ∧ '\n' ∉ style := by
  interval_cases i <;> simp only [Nat.reducePow, Nat.reduceAdd] at hlo hhi <;>
    interval_cases lvl <;> exact ⟨rfl, _, rfl, by decide⟩

theorem severity_letter_ne_newline (i : Nat) : '\n' ≠ severity_letter i := by
  unfold severity_letter
  split <;> decide

theorem severity_name_no_newline (i : Nat) : '\n' ∉ severity_name i := by
  unfold severity_name
  split <;> decide

theorem plain_one_line (entry : LogEntry) (i : Nat) (hi : i < 5) (hlo : 2 ^ i ≤ entry.level)
    (hhi : entry.level < 2 ^ (i + 1)) (hfunc : '\n' ∉ entry.func)
    (hmsg : '\n' ∉ entry.message) :
    ∃ line, log_fmtconsole_format_plain [] entry = some (line ++ ['\n'], line.length + 1)
      ∧ '\n' ∉ line := by
  refine ⟨printf_left 9 (printf_d entry.time) ++ [' '] ++ [severity_letter i] ++ [':', ' ']
    ++ entry.func ++ [':', ' '] ++ entry.message, ?_, ?_⟩
  · unfold log_fmtconsole_format_plain
    rw [level_prefix_of_msb entry.level i hi hlo hhi]
    simp [strbuf_printf]
    omega
  · have h1 := printf_left_no_newline 9 _ (printf_d_no_newline entry.time)
    have h2 := severity_letter_ne_newline i
    simp only [List.mem_append, List.mem_cons, List.mem_singleton, List.not_mem_nil, not_or]
    refine ⟨⟨⟨⟨⟨⟨h1, ?_⟩, ?_⟩, ?_⟩, hfunc⟩, ?_⟩, hmsg⟩
    · decide
    · simpa using h2
    · decide
    · decide

theorem ansi_one_line (entry : LogEntry) (i : Nat) (hi : i < 5) (hlo : 2 ^ i ≤ entry.level)
    (hhi : entry.level < 2 ^ (i + 1)) (hfunc : '\n' ∉ entry.func)
    (hmsg : '\n' ∉ entry.message) :
    ∃ line, log_fmtconsole_format_ansi [] entry = some (line ++ ['\n'], line.length + 1)
      ∧ '\n' ∉ line := by
  obtain ⟨-, style, hstyle, hnl⟩ := level_ansi_style_code_of_msb entry.level i hi hlo hhi
  refine ⟨[ESC, '[', '1', ';', '3', '0', 'm'] ++ printf_left 9 (printf_d entry.time) ++ [' ']
        ++ style ++ [severity_letter i] ++ [ESC, '[', '1', ';', '3', '0', 'm'] ++ [':', ' ']
        ++ [ESC, '[', '1', ';', '3', '4', 'm'] ++ entry.func
        ++ [ESC, '[', '1', ';', '3', '0', 'm'] ++ [':', ' '] ++ [ESC, '[', '0', 'm']
        ++ entry.message, ?_, ?_⟩
  · unfold log_fmtconsole_format_ansi
    rw [level_prefix_of_msb entry.level i hi hlo hhi, hstyle]
    simp [strbuf_printf]
    omega
  · have h1 := printf_left_no_newline 9 _ (printf_d_no_newline entry.time)
    have h2 := severity_letter_ne_newline i
    have hesc : '\n' ≠ ESC := by decide
    simp only [List.mem_append, List.mem_cons, List.mem_singleton, List.not_mem_nil, not_or]
    simp only [hesc, h1, hnl, hfunc, hmsg, h2, or_false, false_or, not_false_eq_true,
      and_true, true_and]
    decide

theorem file_one_line (entry : LogEntry) (i : Nat) (hi : i < 5) (hlo : 2 ^ i ≤ entry.level)
    (hhi : entry.level < 2 ^ (i + 1)) (hfunc : '\n' ∉ entry.func)
    (hmsg : '\n' ∉ entry.message) :
    ∃ line, log_fmtfile_format [] entry = some (line ++ ['\n'], line.length + 1)
      ∧ '\n' ∉ line := by
  refine ⟨printf_d entry.time ++ [' ', ' '] ++ severity_name i ++ [' ', ' '] ++ entry.func
    ++ [':', ' '] ++ entry.message, ?_, ?_⟩
  · unfold log_fmtfile_format
    rw [level_name_of_msb entry.level i hi hlo hhi]
    simp [strbuf_printf]
    omega
  · have h1 := printf_d_no_newline entry.time
    have h2 := severity_name_no_newline i
    simp only [List.mem_append, List.mem_cons, List.mem_singleton, List.not_mem_nil, not_or]
    simp only [h1, h2, hfunc, hmsg, or_false, false_or, not_false_eq_true, and_true, true_and]
    decide

theorem console_one_line (supports_ansi : Bool) (out : Nat) (entry : LogEntry) (i : Nat)
    (hi : i < 5) (hlo : 2 ^ i ≤ entry.level) (hhi : entry.level < 2 ^ (i + 1))
    (hfunc : '\n' ∉ entry.func) (hmsg : '\n' ∉ entry.message) :
    ∃ line, write_of entry (example_console supports_ansi out)
        = Event.rw_write out (line ++ ['\n']) ∧ '\n' ∉ line := by
  cases supports_ansi with
  | false =>
    obtain ⟨line, h1, h2⟩ := plain_one_line entry i hi hlo hhi hfunc hmsg
    refine ⟨line, ?_, h2⟩
    simp [write_of, example_console, log_formatter_console, builtin_format, h1]
  | true =>
    obtain ⟨line, h1, h2⟩ := ansi_one_line entry i hi hlo hhi hfunc hmsg
    refine ⟨line, ?_, h2⟩
    simp [write_of, example_console, log_formatter_console, builtin_format, h1]

theorem example_world_enabled (supports_ansi : Bool) (out : Nat) :
    (example_world supports_ansi out).logging.enabled_log_levels = 30 := rfl

theorem example_world_dispatch_info (supports_ansi : Bool) (out : Nat) (entry : LogEntry)
    (h : entry.level = 2) :
    dispatch_events (example_world supports_ansi out).logging.outputs entry = [] := by
  have hl : (example_console supports_ansi out).levels = 24 := rfl
  have hm : ¬ (example_console supports_ansi out).levels &&& entry.level ≠ 0 := by
    rw [h, hl]; decide
  simp [dispatch_events, example_world, List.filter_cons, hm]

theorem example_world_dispatch_error (supports_ansi : Bool) (out : Nat) (entry : LogEntry)
    (h : entry.level = 8) :
    dispatch_events (example_world supports_ansi out).logging.outputs entry
      = [write_of entry (example_console supports_ansi out)] := by
  have hl : (example_console supports_ansi out).levels = 24 := rfl
  have hm : (example_console supports_ansi out).levels &&& entry.level ≠ 0 := by
    rw [h, hl]; decide
  simp [dispatch_events, example_world, List.filter_cons, hm]

/-- C12. For a record whose level has its most significant bit at one of the
five severities and whose function name and message contain no newline, each of
the three built-in formatters renders, into the cleared buffer, a text that ends
with a newline and has no other newline, and returns its length. In the example
of the spec (synchronous mode, enabled mask Info, Warning, Error and Fatal, one
console sink with mask Error and Fatal, plain or ANSI), logging an Info record
returns without any effect and logging an Error record has one effect, one
write of one such line to the sink. -/
theorem builtin_formatters_one_line :
    (∀ (entry : LogEntry) (i : Nat), i < 5 → 2 ^ i ≤ entry.level → entry.level < 2 ^ (i + 1) →
        '\n' ∉ entry.func → '\n' ∉ entry.message →
        ∀ fmt ∈ [log_fmtconsole_format_plain, log_fmtconsole_format_ansi, log_fmtfile_format],
          ∃ line, fmt [] entry = some (line ++ ['\n'], line.length + 1) ∧ '\n' ∉ line) ∧
      (∀ (env : Env) (supports_ansi : Bool) (out : Nat) (funcname filename : CString)
          (line : Nat) (text : CString) (ticks : Nat),
        '\n' ∉ funcname → '\n' ∉ text →
        (log_internal env LOG_INFO funcname filename line text ticks
            (example_world supports_ansi out)).is_returned = true ∧
        (log_internal env LOG_INFO funcname filename line text ticks
            (example_world supports_ansi out)).world.trace = [] ∧
        ∃ l, '\n' ∉ l ∧
          (log_internal env LOG_ERROR funcname filename line text ticks
            (example_world supports_ansi out)).world.trace
            = [Event.rw_write out (l ++ ['\n'])]) := by
  constructor
  · intro entry i hi hlo hhi hfunc hmsg fmt hfmt
    simp only [List.mem_cons, List.mem_singleton, List.not_mem_nil, or_false] at hfmt
    rcases hfmt with rfl | rfl | rfl
    · exact plain_one_line entry i hi hlo hhi hfunc hmsg
    · exact ansi_one_line entry i hi hlo hhi hfunc hmsg
    · exact file_one_line entry i hi hlo hhi hfunc hmsg
  · intro env supports_ansi out funcname filename line text ticks hfunc htext
    have hM := example_world_enabled supports_ansi out
    have hinfo := log_internal_plain env LOG_INFO funcname filename line text ticks
      (example_world supports_ansi out) (by rw [hM]; decide) (by rw [hM]; decide)
    have herror := log_internal_plain env LOG_ERROR funcname filename line text ticks
      (example_world supports_ansi out) (by rw [hM]; decide) (by rw [hM]; decide)
    obtain ⟨f, hf⟩ := log_internal_deliver_sync
      (log_internal_entry env
        (LOG_INFO &&& (example_world supports_ansi out).logging.enabled_log_levels)
        funcname filename line text ticks) (example_world supports_ansi out) rfl
    obtain ⟨g, hg⟩ := log_internal_deliver_sync
      (log_internal_entry env
        (LOG_ERROR &&& (example_world supports_ansi out).logging.enabled_log_levels)
        funcname filename line text ticks) (example_world supports_ansi out) rfl
    rw [example_world_dispatch_info supports_ansi out _ (by rw [hM]; rfl)] at hf
    rw [example_world_dispatch_error supports_ansi out _ (by rw [hM]; rfl)] at hg
    obtain ⟨l, h1, h2⟩ := console_one_line supports_ansi out
      (log_internal_entry env
        (LOG_ERROR &&& (example_world supports_ansi out).logging.enabled_log_levels)
        funcname filename line text ticks) 3 (by decide)
      (by rw [hM]; show 2 ^ 3 ≤ LOG_ERROR &&& 30; decide)
      (by rw [hM]; show LOG_ERROR &&& 30 < 2 ^ (3 + 1); decide) hfunc
      (by
        rw [hM]
        have h8 : LOG_ERROR &&& 30 &&& LOG_FATAL = 0 := by decide
        simpa [log_internal_entry, h8] using htext)
    refine ⟨by rw [hinfo]; rfl, ?_, l, h2, ?_⟩
    · rw [hinfo, hf]
      simp [Outcome.world, example_world]
    · rw [herror, hg, h1]
      simp [Outcome.world, example_world]

/-- Witness of C12: a Warning record for the plain console formatter, and the
example of the spec on a terminal without ANSI sequences. -/
theorem builtin_formatters_one_line_witness :
    (∃ line, log_fmtconsole_format_plain []
          { message := ['m'], file := ['c'], func := ['f'], time := 5, line := 7,
            level := LOG_WARN }
        = some (line ++ ['\n'], line.length + 1) ∧ '\n' ∉ line) ∧
      (log_internal sample_env LOG_INFO ['f'] ['c'] 7 ['m'] 5 (example_world false 1)).world.trace
        = [] :=
  ⟨builtin_formatters_one_line.1
      { message := ['m'], file := ['c'], func := ['f'], time := 5, line := 7, level := LOG_WARN }
      2 (by decide) (by decide) (by decide) (by decide) (by decide)
      log_fmtconsole_format_plain (by simp),
    (builtin_formatters_one_line.2 sample_env false 1 ['f'] ['c'] 7 ['m'] 5 (by decide)
      (by decide)).2.1⟩

/-! ## C13: the order of the effects on the fatal-abort path -/

theorem produced_worker_turns (outputs : List Logger) (turns : Nat) :
    produced outputs (worker_turns turns) = [] := by
  induction turns with
  | zero => rfl
  | succ k ih => simpa [worker_turns, List.replicate_succ, produced] using ih

theorem dispatched_count_worker_turns (outputs : List Logger) (turns : Nat) :
    ∀ n, dispatched_count outputs (worker_turns turns) n = min turns n := by
  induction turns with
  | zero => intro n; simp [worker_turns, dispatched_count]
  | succ k ih =>
    intro n
    cases n with
    | zero =>
      have := ih 0
      simp only [worker_turns, List.replicate_succ, dispatched_count] at this ⊢
      rw [this]; simp
    | succ n =>
      have := ih n
      simp only [worker_turns, List.replicate_succ, dispatched_count] at this ⊢
      rw [this]; omega

theorem queue_run_preserves (acts : List QueueAction) :
    ∀ w : World, (queue_run acts w).logging.outputs = w.logging.outputs ∧
      (queue_run acts w).logging.err_appendix = w.logging.err_appendix ∧
      (queue_run acts w).logging.queue.thread = w.logging.queue.thread := by
  induction acts with
  | nil => intro w; exact ⟨rfl, rfl, rfl⟩
  | cons a acts ih =>
    intro w
    cases a with
    | produce entry =>
      obtain ⟨h1, h2, h3⟩ := ih (log_dispatch_async entry w)
      rw [queue_run, queue_step, h1, h2, h3, log_dispatch_async_eq]
      exact ⟨rfl, rfl, rfl⟩
    | consume =>
      obtain ⟨h1, h2, h3⟩ := ih (log_queue_thread_iter w).1
      rw [queue_run, queue_step, h1, h2, h3]
      cases hq : w.logging.queue.queue with
      | nil => rw [log_queue_thread_iter_nil w hq]; exact ⟨rfl, rfl, rfl⟩
      | cons qle rest =>
        by_cases hflag : w.logging.queue.shutdown < 2
        · obtain ⟨f, hf⟩ := log_queue_thread_iter_cons w qle rest hq hflag
          rw [hf]; exact ⟨rfl, rfl, rfl⟩
        · rw [log_queue_thread_iter_stopped w hflag]; exact ⟨rfl, rfl, rfl⟩

/-- C13 fails as stated: in synchronous mode the effects of a Fatal record are
the two writes, then the message box, and only then the flushes and closes of
the sinks, and abort: the message box comes before the engine is shut down. -/
theorem fatal_abort_order_counterexample :
    (log_internal sample_env LOG_FATAL ['f'] ['c'] 7 ['m'] 5
        (sample_world LOG_ALL false)).world.trace
      = [Event.rw_write 1 ['m', '\n'], Event.rw_write 2 ['m', '\n'], Event.msgbox ['m'],
         Event.rw_sync 1, Event.rw_close 1, Event.rw_sync 2, Event.rw_close 2, Event.abort] := by
  decide

/-- C13, amended. On the fatal-abort path (a record whose filtered level holds
Fatal, without the no-abort modifier) the call ends in `log_abort` with the
message of the record. In synchronous mode the effects occur in this order: the
record is dispatched, then the message box is shown (message and appendix, in a
build that has it), then every sink is flushed and closed, then abort. In
asynchronous mode the record is queued and, whatever number of turns the worker
takes before the message box is shown, the records it has written by then are
the first of the queue, the message box follows, then the rest of the queue is
written, the fatal record last, then every sink is flushed and closed, then
abort. -/
theorem fatal_abort_order (env : Env) (L : LogLevel) (funcname filename : CString)
    (line : Nat) (text : CString) (ticks : Nat) (w : World)
    (hfatal : L &&& w.logging.enabled_log_levels &&& LOG_FATAL ≠ 0)
    (hna : L &&& LOG_NOABORT_BIT = 0) :
    log_internal env L funcname filename line text ticks w
        = Outcome.aborted (log_abort env
          (some (log_internal_entry env (L &&& w.logging.enabled_log_levels) funcname
            filename line text ticks).message)
          (log_internal_deliver
            (log_internal_entry env (L &&& w.logging.enabled_log_levels) funcname filename
              line text ticks) w)) ∧
      (w.logging.queue.thread = false →
        (log_internal env L funcname filename line text ticks w).world.trace =
          w.trace
            ++ dispatch_events w.logging.outputs
                (log_internal_entry env (L &&& w.logging.enabled_log_levels) funcname
                  filename line text ticks)
            ++ msgbox_events env
                (some (log_internal_entry env (L &&& w.logging.enabled_log_levels) funcname
                  filename line text ticks).message) w.logging.err_appendix
            ++ w.logging.outputs.flatMap delete_events ++ [Event.abort]) ∧
      (w.logging.queue.thread = true → w.logging.queue.shutdown < 2 →
        ∀ turns : Nat,
          (log_abort env
            (some (log_internal_entry env (L &&& w.logging.enabled_log_levels) funcname
              filename line text ticks).message)
            (queue_run (worker_turns turns)
              (log_internal_deliver
                (log_internal_entry env (L &&& w.logging.enabled_log_levels) funcname
                  filename line text ticks) w))).trace =
          w.trace
            ++ queue_events w.logging.outputs
                ((w.logging.queue.queue ++ enqueued w.logging.outputs
                  (log_internal_entry env (L &&& w.logging.enabled_log_levels) funcname
                    filename line text ticks)).take turns)
            ++ msgbox_events env
                (some (log_internal_entry env (L &&& w.logging.enabled_log_levels) funcname
                  filename line text ticks).message) w.logging.err_appendix
            ++ queue_events w.logging.outputs
                ((w.logging.queue.queue ++ enqueued w.logging.outputs
                  (log_internal_entry env (L &&& w.logging.enabled_log_levels) funcname
                    filename line text ticks)).drop turns)
            ++ w.logging.outputs.flatMap delete_events ++ [Event.abort]) := by
  have h0 : L &&& w.logging.enabled_log_levels ≠ LOG_NONE := by
    intro h
    apply hfatal
    rw [h]
    simp [LOG_NONE]
  have hcall := log_internal_abort env L funcname filename line text ticks w h0 hfatal hna
  refine ⟨hcall, ?_, ?_⟩
  · intro hthread
    rw [hcall]
    obtain ⟨f, hf⟩ := log_internal_deliver_sync
      (log_internal_entry env (L &&& w.logging.enabled_log_levels) funcname filename line
        text ticks) w hthread
    rw [Outcome.world, log_abort_eq, hf]
    have ht : ∀ (m f : CString) (evs : List Event),
        (((w.with_pre_format m).with_format f).emit evs).logging.queue.thread = false :=
      fun _ _ _ => hthread
    simp [shutdown_events, ht, hthread]
  · intro hthread hflag turns
    have hd := log_internal_deliver_async
      (log_internal_entry env (L &&& w.logging.enabled_log_levels) funcname filename line
        text ticks) w hthread
    obtain ⟨hp1, hp2, hp3⟩ := queue_run_preserves (worker_turns turns)
      (log_internal_deliver
        (log_internal_entry env (L &&& w.logging.enabled_log_levels) funcname filename line
          text ticks) w)
    obtain ⟨hr1, hr2⟩ := queue_run_fifo_count (worker_turns turns)
      (log_internal_deliver
        (log_internal_entry env (L &&& w.logging.enabled_log_levels) funcname filename line
          text ticks) w) (by rw [hd]; exact hflag)
    rw [hd] at hp1 hp2 hp3 hr1 hr2
    rw [hd, log_abort_eq]
    simp only [shutdown_events, hp1, hp2, hp3, hr1, hr2]
    simp only [produced_worker_turns, dispatched_count_worker_turns, List.append_nil,
      with_queue_outputs, with_pre_format_outputs, with_queue_queue, with_queue_trace,
      with_pre_format_trace, with_queue_appendix, with_pre_format_appendix]
    have htk : ∀ (l : List QueuedLogEntry), l.take (min turns l.length) = l.take turns := by
      intro l
      rcases Nat.le_total turns l.length with h | h
      · rw [Nat.min_eq_left h]
      · rw [Nat.min_eq_right h, List.take_of_length_le h, List.take_length]
    have hdk : ∀ (l : List QueuedLogEntry), l.drop (min turns l.length) = l.drop turns := by
      intro l
      rcases Nat.le_total turns l.length with h | h
      · rw [Nat.min_eq_left h]
      · rw [Nat.min_eq_right h, List.drop_of_length_le h, List.drop_length]
    rw [htk, hdk]
    have hth : ((w.with_pre_format (log_internal_entry env
        (L &&& w.logging.enabled_log_levels) funcname filename line text ticks).message).with_queue
        (w.logging.queue.queue ++ enqueued w.logging.outputs (log_internal_entry env
          (L &&& w.logging.enabled_log_levels) funcname filename line text
          ticks))).logging.queue.thread = true := hthread
    simp [hth]

/-- Witness of the amended C13: a Fatal record on the sample engine in
synchronous mode. -/
theorem fatal_abort_order_witness :
    (LOG_FATAL &&& (sample_world LOG_ALL false).logging.enabled_log_levels &&& LOG_FATAL ≠ 0
        ∧ LOG_FATAL &&& LOG_NOABORT_BIT = 0) ∧
      (log_internal sample_env LOG_FATAL ['f'] ['c'] 7 ['m'] 5
        (sample_world LOG_ALL false)).is_returned = false :=
  ⟨by decide, by
    rw [(fatal_abort_order sample_env LOG_FATAL ['f'] ['c'] 7 ['m'] 5
      (sample_world LOG_ALL false) (by decide) (by decide)).1]
    rfl⟩

/-! ## C15: the index of the level tables -/

theorem msb_of_level (lvl : Nat) (h0 : lvl ≠ 0) (h32 : lvl < 32) :
    ∃ i, i < 5 ∧ 2 ^ i ≤ lvl ∧ lvl < 2 ^ (i + 1)
      ∧ int_to_uint (SDL_MostSignificantBitIndex32 lvl) = i := by
  interval_cases lvl
  · exact absurd rfl h0
  all_goals first
    | exact ⟨0, by decide, by decide, by decide, by decide⟩
    | exact ⟨1, by decide, by decide, by decide, by decide⟩
    | exact ⟨2, by decide, by decide, by decide, by decide⟩
    | exact ⟨3, by decide, by decide, by decide, by decide⟩
    | exact ⟨4, by decide, by decide, by decide, by decide⟩

theorem testBit_of_msb (lvl i : Nat) (hlo : 2 ^ i ≤ lvl) (hhi : lvl < 2 ^ (i + 1)) :
    lvl.testBit i = true ∧ ∀ j, i < j → lvl.testBit j = false := by
  constructor
  · rw [Nat.testBit_to_div_mod]
    have h1 : lvl / 2 ^ i = 1 := by
      apply Nat.div_eq_of_lt_le
      · simpa using hlo
      · rw [Nat.pow_succ] at hhi
        omega
    simp [h1]
  · intro j hj
    apply Nat.testBit_lt_two_pow
    exact lt_of_lt_of_le hhi (Nat.pow_le_pow_right (by decide) hj)

theorem log_internal_sync_writes (env : Env) (L : LogLevel) (funcname filename : CString)
    (line : Nat) (text : CString) (ticks : Nat) (w : World)
    (hsync : w.logging.queue.thread = false)
    (h0 : L &&& w.logging.enabled_log_levels ≠ LOG_NONE) :
    ∃ evs, (log_internal env L funcname filename line text ticks w).world.trace
        = w.trace ++ evs ∧
      writes evs = dispatch_events w.logging.outputs
        (log_internal_entry env (L &&& w.logging.enabled_log_levels) funcname filename line
          text ticks) := by
  obtain ⟨f, hf⟩ := log_internal_deliver_sync
    (log_internal_entry env (L &&& w.logging.enabled_log_levels) funcname filename line
      text ticks) w hsync
  by_cases hfatal : L &&& w.logging.enabled_log_levels &&& LOG_FATAL = 0
  · refine ⟨dispatch_events w.logging.outputs (log_internal_entry env
        (L &&& w.logging.enabled_log_levels) funcname filename line text ticks), ?_, ?_⟩
    · rw [log_internal_plain _ _ _ _ _ _ _ _ h0 hfatal, hf]
      simp [Outcome.world]
    · rw [writes_dispatch_events]
  · by_cases hna : L &&& LOG_NOABORT_BIT = 0
    · refine ⟨dispatch_events w.logging.outputs (log_internal_entry env
          (L &&& w.logging.enabled_log_levels) funcname filename line text ticks)
        ++ (msgbox_events env (some (log_internal_entry env
            (L &&& w.logging.enabled_log_levels) funcname filename line text ticks).message)
            w.logging.err_appendix
          ++ w.logging.outputs.flatMap delete_events ++ [Event.abort]), ?_, ?_⟩
      · rw [log_internal_abort _ _ _ _ _ _ _ _ h0 hfatal hna, hf]
        simp [Outcome.world, log_abort_eq, shutdown_events_sync, hsync]
      · rw [writes_append, writes_append, writes_append, writes_dispatch_events,
          writes_msgbox, writes_delete]
        simp [writes, Event.is_write]
    · refine ⟨dispatch_events w.logging.outputs (log_internal_entry env
          (L &&& w.logging.enabled_log_levels) funcname filename line text ticks)
        ++ w.logging.outputs.map (fun l => Event.rw_sync l.out), ?_, ?_⟩
      · rw [log_internal_noabort _ _ _ _ _ _ _ _ h0 hfatal hna, hf]
        simp [Outcome.world, sync_loggers_eq]
      · rw [writes_append, writes_dispatch_events, writes_sync, List.append_nil]

theorem log_internal_async_queue (env : Env) (L : LogLevel) (funcname filename : CString)
    (line : Nat) (text : CString) (ticks : Nat) (w : World)
    (hthread : w.logging.queue.thread = true)
    (h0 : L &&& w.logging.enabled_log_levels ≠ LOG_NONE) :
    ((log_internal env L funcname filename line text ticks w).is_returned = true →
        (log_internal env L funcname filename line text ticks w).world.logging.queue.queue
          = w.logging.queue.queue ++ enqueued w.logging.outputs
            (log_internal_entry env (L &&& w.logging.enabled_log_levels) funcname filename
              line text ticks)) ∧
      ((log_internal env L funcname filename line text ticks w).is_returned = false →
        writes (log_internal env L funcname filename line text ticks w).world.trace
          = writes w.trace ++ queue_events w.logging.outputs
            (w.logging.queue.queue ++ enqueued w.logging.outputs
              (log_internal_entry env (L &&& w.logging.enabled_log_levels) funcname filename
                line text ticks))) := by
  have hd := log_internal_deliver_async
    (log_internal_entry env (L &&& w.logging.enabled_log_levels) funcname filename line
      text ticks) w hthread
  by_cases hfatal : L &&& w.logging.enabled_log_levels &&& LOG_FATAL = 0
  · rw [log_internal_plain _ _ _ _ _ _ _ _ h0 hfatal, hd]
    exact ⟨fun _ => rfl, fun h => absurd h (by simp [Outcome.is_returned])⟩
  · by_cases hna : L &&& LOG_NOABORT_BIT = 0
    · rw [log_internal_abort _ _ _ _ _ _ _ _ h0 hfatal hna, hd]
      refine ⟨fun h => absurd h (by simp [Outcome.is_returned]), fun _ => ?_⟩
      have ht : ∀ (m : CString) (q : List QueuedLogEntry),
          ((w.with_pre_format m).with_queue q).logging.queue.thread = true :=
        fun _ _ => hthread
      rw [Outcome.world, log_abort_eq]
      simp only [shutdown_events, ht, with_queue_outputs, with_pre_format_outputs,
        with_queue_queue, with_queue_trace, with_pre_format_trace, with_queue_appendix,
        with_pre_format_appendix]
      simp only [writes_append, writes_msgbox, writes_delete, List.append_assoc]
      simp [writes_queue_events, show writes [Event.abort] = [] from rfl]
    · rw [log_internal_noabort _ _ _ _ _ _ _ _ h0 hfatal hna, hd, sync_loggers_eq]
      exact ⟨fun _ => rfl, fun h => absurd h (by simp [Outcome.is_returned])⟩

theorem builtin_formatters_succeed (entry : LogEntry) (i : Nat) (hi : i < 5)
    (hlo : 2 ^ i ≤ entry.level) (hhi : entry.level < 2 ^ (i + 1)) :
    (log_fmtconsole_format_plain [] entry).isSome = true ∧
      (log_fmtconsole_format_ansi [] entry).isSome = true ∧
      (log_fmtfile_format [] entry).isSome = true := by
  obtain ⟨-, style, hstyle, -⟩ := level_ansi_style_code_of_msb entry.level i hi hlo hhi
  refine ⟨?_, ?_, ?_⟩
  · unfold log_fmtconsole_format_plain
    rw [level_prefix_of_msb entry.level i hi hlo hhi]
    rfl
  · unfold log_fmtconsole_format_ansi
    rw [level_prefix_of_msb entry.level i hi hlo hhi, hstyle]
    rfl
  · unfold log_fmtfile_format
    rw [level_name_of_msb entry.level i hi hlo hhi]
    rfl

/-- C15. When the enabled mask holds only severity bits: a call of
`log_internal` whose level is filtered out returns with the world unchanged, so
no formatter is called. Otherwise the one record `e` of the call is handed on as
follows. In synchronous mode the writes of the call are, for each sink that
accepts `e`, the text that the formatter of the sink renders from `e`; in
asynchronous mode `e` is what the call appends to the queue (or, on the
fatal-abort path, what is written after the queue when it is drained), and a
turn of the worker on a queue headed by `e` writes, for each sink that accepts
`e`, what its formatter renders from `e`. The level of `e` is `L & M`: it is not
zero and below 32, the index that `INDEX_MAP` computes for it is the index `i` of
its most significant set bit, below 5, so the assertion holds; `level_prefix`,
`level_name` and `level_ansi_style_code` give the letter, the name and the style
of severity `i`, the highest of the level, and the three built-in formatters
render the record. -/
theorem log_internal_formatter_level (env : Env) (L : LogLevel) (funcname filename : CString)
    (line : Nat) (text : CString) (ticks : Nat) (w : World)
    (hM : w.logging.enabled_log_levels &&& LOG_ALL = w.logging.enabled_log_levels) :
    (L &&& w.logging.enabled_log_levels = LOG_NONE →
        log_internal env L funcname filename line text ticks w = Outcome.returned w) ∧
      (L &&& w.logging.enabled_log_levels ≠ LOG_NONE →
        ∃ e : LogEntry,
          e = log_internal_entry env (L &&& w.logging.enabled_log_levels) funcname filename
            line text ticks ∧
          (w.logging.queue.thread = false →
            ∃ evs, (log_internal env L funcname filename line text ticks w).world.trace
                = w.trace ++ evs ∧
              writes evs = (w.logging.outputs.filter (fun S => S.levels &&& e.level ≠ 0)).map
                (fun S => Event.rw_write S.out
                  ((S.formatter.format [] e).1.take (S.formatter.format [] e).2))) ∧
          (w.logging.queue.thread = true →
            ((log_internal env L funcname filename line text ticks w).is_returned = true →
              (log_internal env L funcname filename line text ticks w).world.logging.queue.queue
                = w.logging.queue.queue ++ enqueued w.logging.outputs e) ∧
            ((log_internal env L funcname filename line text ticks w).is_returned = false →
              writes (log_internal env L funcname filename line text ticks w).world.trace
                = writes w.trace ++ queue_events w.logging.outputs
                  (w.logging.queue.queue ++ enqueued w.logging.outputs e))) ∧
          (∀ (w1 : World) (rest : List QueuedLogEntry),
            w1.logging.queue.queue = { e := e } :: rest → w1.logging.queue.shutdown < 2 →
            (log_queue_thread_iter w1).1.trace = w1.trace
              ++ (w1.logging.outputs.filter (fun S => S.levels &&& e.level ≠ 0)).map
                (fun S => Event.rw_write S.out
                  ((S.formatter.format [] e).1.take (S.formatter.format [] e).2))) ∧
          e.level = L &&& w.logging.enabled_log_levels ∧ e.level ≠ 0 ∧ e.level < 32 ∧
          ∃ i, i < 5 ∧
            int_to_uint (SDL_MostSignificantBitIndex32 e.level) = i ∧
            e.level.testBit i = true ∧ (∀ j, i < j → e.level.testBit j = false) ∧
            level_prefix e.level = some [severity_letter i] ∧
            level_name e.level = some (severity_name i) ∧
            (∃ style, level_ansi_style_map[i]? = some style ∧
              level_ansi_style_code e.level = some style) ∧
            (log_fmtconsole_format_plain [] e).isSome = true ∧
            (log_fmtconsole_format_ansi [] e).isSome = true ∧
            (log_fmtfile_format [] e).isSome = true) := by
  refine ⟨fun h0 => log_internal_filtered _ _ _ _ _ _ _ _ h0, fun h0 => ?_⟩
  refine ⟨_, rfl, ?_, ?_, ?_, rfl, h0, ?_⟩
  · intro hsync
    exact log_internal_sync_writes env L funcname filename line text ticks w hsync h0
  · intro hthread
    exact log_internal_async_queue env L funcname filename line text ticks w hthread h0
  · intro w1 rest hq hflag
    obtain ⟨f, hf⟩ := log_queue_thread_iter_cons w1 _ rest hq hflag
    rw [hf]
    rfl
  · have hle : w.logging.enabled_log_levels ≤ 31 := by
      have h := @Nat.and_le_right w.logging.enabled_log_levels LOG_ALL
      rw [hM] at h
      exact h
    have h32 : L &&& w.logging.enabled_log_levels < 32 :=
      lt_of_le_of_lt Nat.and_le_right (Nat.lt_succ_of_le hle)
    obtain ⟨i, hi, hlo, hhi, hidx⟩ := msb_of_level _ h0 h32
    obtain ⟨ht, hf⟩ := testBit_of_msb _ i hlo hhi
    obtain ⟨hmap, style, hstyle, -⟩ := level_ansi_style_code_of_msb _ i hi hlo hhi
    obtain ⟨b1, b2, b3⟩ := builtin_formatters_succeed
      (log_internal_entry env (L &&& w.logging.enabled_log_levels) funcname filename line
        text ticks) i hi hlo hhi
    exact ⟨h32, i, hi, hidx, ht, hf, level_prefix_of_msb _ i hi hlo hhi,
      level_name_of_msb _ i hi hlo hhi, ⟨style, by rw [← hmap, hstyle], hstyle⟩, b1, b2, b3⟩

/-- Witness of C15: a request for Warning and Error together under the mask
`LOG_ALL`, in synchronous mode. -/
theorem log_internal_formatter_level_witness :
    ((sample_world LOG_ALL false).logging.enabled_log_levels &&& LOG_ALL
          = (sample_world LOG_ALL false).logging.enabled_log_levels ∧
        (LOG_WARN ||| LOG_ERROR) &&& (sample_world LOG_ALL false).logging.enabled_log_levels
          ≠ LOG_NONE) ∧
      ∃ e : LogEntry, e = log_internal_entry sample_env
          ((LOG_WARN ||| LOG_ERROR) &&& (sample_world LOG_ALL false).logging.enabled_log_levels)
          ['f'] ['c'] 7 ['m'] 5 ∧
        e.level < 32 ∧ level_name e.level = some (severity_name 3) :=
  ⟨by decide,
    ((log_internal_formatter_level sample_env (LOG_WARN ||| LOG_ERROR) ['f'] ['c'] 7 ['m'] 5
      (sample_world LOG_ALL false) (by decide)).2 (by decide)).imp
      fun e h => ⟨h.1, h.2.2.2.2.2.2.1, by rw [h.1]; rfl⟩⟩

/-! ## C16: parsing a level string twice -/

theorem lor_lor_self (m b : Nat) : (m ||| b) ||| b = m ||| b := by
  apply Nat.eq_of_testBit_eq
  intro i
  simp only [Nat.testBit_or]
  cases m.testBit i <;> cases b.testBit i <;> rfl

theorem land_lor_idem (m a b : Nat) : ((m &&& a ||| b) &&& a) ||| b = m &&& a ||| b := by
  apply Nat.eq_of_testBit_eq
  intro i
  simp only [Nat.testBit_or, Nat.testBit_and]
  cases m.testBit i <;> cases a.testBit i <;> cases b.testBit i <;> rfl

theorem lor_land_lor (m x a b : Nat) :
    ((m ||| x) &&& a) ||| b = (m &&& a) ||| ((x &&& a) ||| b) := by
  apply Nat.eq_of_testBit_eq
  intro i
  simp only [Nat.testBit_or, Nat.testBit_and]
  cases m.testBit i <;> cases x.testBit i <;> cases a.testBit i <;> cases b.testBit i <;> rfl

theorem log_parse_levels_loop_form (s : CString) :
    ∀ en : Bool, (∃ b, ∀ m, log_parse_levels_loop s en m = m ||| b)
      ∨ (∃ a b, ∀ m, log_parse_levels_loop s en m = (m &&& a) ||| b) := by
  induction s with
  | nil =>
    intro en
    exact Or.inl ⟨0, fun m => by simp [log_parse_levels_loop]⟩
  | cons c cs ih =>
    intro en
    by_cases h1 : c = '+'
    · rcases ih true with ⟨b, hb⟩ | ⟨a, b, hab⟩
      · exact Or.inl ⟨b, fun m => by rw [log_parse_levels_loop, if_pos h1, hb]⟩
      · exact Or.inr ⟨a, b, fun m => by rw [log_parse_levels_loop, if_pos h1, hab]⟩
    by_cases h2 : c = '-'
    · rcases ih false with ⟨b, hb⟩ | ⟨a, b, hab⟩
      · exact Or.inl ⟨b, fun m => by rw [log_parse_levels_loop, if_neg h1, if_pos h2, hb]⟩
      · exact Or.inr ⟨a, b, fun m => by rw [log_parse_levels_loop, if_neg h1, if_pos h2, hab]⟩
    cases en with
    | true =>
      rcases ih true with ⟨b, hb⟩ | ⟨a, b, hab⟩
      · refine Or.inl ⟨chr2lvl c ||| b, fun m => ?_⟩
        rw [log_parse_levels_loop, if_neg h1, if_neg h2, if_pos rfl, hb, Nat.or_assoc]
      · refine Or.inr ⟨a, (chr2lvl c &&& a) ||| b, fun m => ?_⟩
        rw [log_parse_levels_loop, if_neg h1, if_neg h2, if_pos rfl, hab, lor_land_lor]
    | false =>
      rcases ih false with ⟨b, hb⟩ | ⟨a, b, hab⟩
      · refine Or.inr ⟨bit_not32 (chr2lvl c), b, fun m => ?_⟩
        rw [log_parse_levels_loop, if_neg h1, if_neg h2, if_neg (by simp), hb]
      · refine Or.inr ⟨bit_not32 (chr2lvl c) &&& a, b, fun m => ?_⟩
        rw [log_parse_levels_loop, if_neg h1, if_neg h2, if_neg (by simp), hab,
          Nat.and_assoc]

/-- C16. Parsing is idempotent: for every mask and every level string, the null
string included, applying `log_parse_levels` with the same string to its own
result gives that result again. -/
theorem log_parse_levels_idempotent (m : LogLevel) (lvlmod : Option CString) :
    log_parse_levels (log_parse_levels m lvlmod) lvlmod = log_parse_levels m lvlmod := by
  cases lvlmod with
  | none => rfl
  | some s =>
    simp only [log_parse_levels]
    rcases log_parse_levels_loop_form s true with ⟨b, hb⟩ | ⟨a, b, hab⟩
    · rw [hb, hb, lor_lor_self]
    · rw [hab, hab, land_lor_idem]

/-! ## C17: the bits that parsing leaves alone -/

theorem chr2lvl_lt (c : Char) : (chr2lvl c : Nat) < 32 := by
  rcases chr2lvl_range c with h | h | h | h | h | h | h <;> rw [h] <;> decide

theorem testBit_bit_not32_high (i : Nat) (h5 : 5 ≤ i) (h32 : i < 32) (c : Char) :
    (bit_not32 (chr2lvl c)).testBit i = true := by
  have hx : (chr2lvl c : Nat) < 32 := chr2lvl_lt c
  have hmod : chr2lvl c % 2 ^ 32 = chr2lvl c :=
    Nat.mod_eq_of_lt (lt_trans hx (by norm_num))
  have hform : bit_not32 (chr2lvl c) = 2 ^ 32 - (chr2lvl c + 1) := by
    unfold bit_not32
    rw [hmod]
    omega
  rw [hform, Nat.testBit_two_pow_sub_succ (lt_trans hx (by norm_num))]
  have hlow : (chr2lvl c).testBit i = false :=
    Nat.testBit_lt_two_pow (lt_of_lt_of_le hx (by
      calc 32 = 2 ^ 5 := by norm_num
        _ ≤ 2 ^ i := Nat.pow_le_pow_right (by decide) h5))
  simp [h32, hlow]

theorem testBit_chr2lvl_high (i : Nat) (h5 : 5 ≤ i) (c : Char) :
    (chr2lvl c).testBit i = false :=
  Nat.testBit_lt_two_pow (lt_of_lt_of_le (chr2lvl_lt c) (by
    calc 32 = 2 ^ 5 := by norm_num
      _ ≤ 2 ^ i := Nat.pow_le_pow_right (by decide) h5))

theorem log_parse_levels_loop_high (i : Nat) (h5 : 5 ≤ i) (h32 : i < 32) (s : CString) :
    ∀ (en : Bool) (m : LogLevel), (log_parse_levels_loop s en m).testBit i = m.testBit i := by
  induction s with
  | nil => intro en m; rfl
  | cons c cs ih =>
    intro en m
    unfold log_parse_levels_loop
    split_ifs with h1 h2 h3
    · exact ih _ _
    · exact ih _ _
    · rw [ih, Nat.testBit_or, testBit_chr2lvl_high i h5, Bool.or_false]
    · rw [ih, Nat.testBit_and, testBit_bit_not32_high i h5 h32, Bool.and_true]

theorem log_parse_levels_loop_lt (s : CString) :
    ∀ (en : Bool) (m : LogLevel), m < 2 ^ 32 → log_parse_levels_loop s en m < 2 ^ 32 := by
  induction s with
  | nil => intro en m h; exact h
  | cons c cs ih =>
    intro en m h
    unfold log_parse_levels_loop
    split_ifs with h1 h2 h3
    · exact ih _ _ h
    · exact ih _ _ h
    · exact ih _ _ (Nat.or_lt_two_pow h (lt_trans (chr2lvl_lt c) (by norm_num)))
    · exact ih _ _ (lt_of_le_of_lt Nat.and_le_left h)

/-- C17. Parsing touches only the five severity bits: for every mask and every
level string, the null string included, the result has the same bit as the mask
at every position from 5 to 31, the no-abort modifier among them; for a mask
that fits in 32 bits the result fits too and agrees with the mask on every bit
from 5 on. For every character `chr2lvl` is 0, a single severity bit, or
`LOG_ALL`. -/
theorem log_parse_levels_frame :
    (∀ (m : LogLevel) (lvlmod : Option CString) (i : Nat), 5 ≤ i → i < 32 →
        (log_parse_levels m lvlmod).testBit i = m.testBit i) ∧
      (∀ (m : LogLevel) (lvlmod : Option CString),
        (log_parse_levels m lvlmod).testBit _LOG_NOABORT_ID = m.testBit _LOG_NOABORT_ID) ∧
      (∀ (m : LogLevel) (lvlmod : Option CString), m < 2 ^ 32 →
        log_parse_levels m lvlmod < 2 ^ 32 ∧
        ∀ i, 5 ≤ i → (log_parse_levels m lvlmod).testBit i = m.testBit i) ∧
      (∀ c : Char, chr2lvl c = 0 ∨ (∃ b, b < 5 ∧ chr2lvl c = 1 <<< b) ∨ chr2lvl c = LOG_ALL) := by
  have hframe : ∀ (m : LogLevel) (lvlmod : Option CString) (i : Nat), 5 ≤ i → i < 32 →
      (log_parse_levels m lvlmod).testBit i = m.testBit i := by
    intro m lvlmod i h5 h32
    cases lvlmod with
    | none => rfl
    | some s => exact log_parse_levels_loop_high i h5 h32 s true m
  have hlt : ∀ (m : LogLevel) (lvlmod : Option CString), m < 2 ^ 32 →
      log_parse_levels m lvlmod < 2 ^ 32 := by
    intro m lvlmod h
    cases lvlmod with
    | none => exact h
    | some s => exact log_parse_levels_loop_lt s true m h
  refine ⟨hframe, fun m lvlmod => hframe m lvlmod _ (by decide) (by decide), ?_, ?_⟩
  · intro m lvlmod h
    refine ⟨hlt m lvlmod h, fun i h5 => ?_⟩
    by_cases h32 : i < 32
    · exact hframe m lvlmod i h5 h32
    · have hpow : 2 ^ 32 ≤ 2 ^ i := Nat.pow_le_pow_right (by decide) (by omega)
      rw [Nat.testBit_lt_two_pow (lt_of_lt_of_le (hlt m lvlmod h) hpow),
        Nat.testBit_lt_two_pow (lt_of_lt_of_le h hpow)]
  · intro c
    rcases chr2lvl_range c with h | h | h | h | h | h | h
    · exact Or.inl h
    · exact Or.inr (Or.inl ⟨0, by decide, h⟩)
    · exact Or.inr (Or.inl ⟨1, by decide, h⟩)
    · exact Or.inr (Or.inl ⟨2, by decide, h⟩)
    · exact Or.inr (Or.inl ⟨3, by decide, h⟩)
    · exact Or.inr (Or.inl ⟨4, by decide, h⟩)
    · exact Or.inr (Or.inr h)

/-- Witness of C17: the string `-A+x` on the mask made of the no-abort modifier
and Debug. -/
theorem log_parse_levels_frame_witness :
    (LOG_NOABORT_BIT ||| LOG_DEBUG < 2 ^ 32 ∧ 5 ≤ 5) ∧
      (log_parse_levels (LOG_NOABORT_BIT ||| LOG_DEBUG) (some ['-', 'A', '+', 'x'])).testBit 5
        = (LOG_NOABORT_BIT ||| LOG_DEBUG).testBit 5 :=
  ⟨by decide, (log_parse_levels_frame.2.2.1 (LOG_NOABORT_BIT ||| LOG_DEBUG)
    (some ['-', 'A', '+', 'x']) (by decide)).2 5 (by decide)⟩

/-! ## The memory of the pool -/

theorem isChain_unique (mem : Obj → MemVal) (c1 : List Obj) :
    ∀ (h : Option Obj) (c2 : List Obj), IsChain mem h c1 → IsChain mem h c2 → c1 = c2 := by
  induction c1 with
  | nil =>
    intro h c2 h1 h2
    cases c2 with
    | nil => rfl
    | cons y c2 =>
      have e1 : h = none := h1
      rw [e1] at h2
      exact absurd h2.1 (by simp)
  | cons x c1 ih =>
    intro h c2 h1 h2
    cases c2 with
    | nil =>
      have e2 : h = none := h2
      rw [e2] at h1
      exact absurd h1.1 (by simp)
    | cons y c2 =>
      have exy : x = y := Option.some.inj (h1.1.symm.trans h2.1)
      subst exy
      obtain ⟨-, n1, hn1, hr1⟩ := h1
      obtain ⟨-, n2, hn2, hr2⟩ := h2
      have en : n1 = n2 := Option.some.inj (hn1.symm.trans hn2)
      subst en
      rw [ih _ _ hr1 hr2]

/-! ## The slots of the pool -/

end Taisei
